import Mathlib

/-!
Verification of the EnemCrawler document-identification engine
(`src/download_enem.py`) against its natural-language specification.

The Python source is shallowly embedded: strings become `List Char`
(with `String` wrappers at the statement level), Selenium element
collections become explicit lists, the page DOM becomes an inductive
tree, the mutable latches of the link classifier become explicit
state-passing, and the retry loop of the downloader becomes a
structurally recursive function on the remaining attempt budget.
Python exceptions that are caught inside the embedded functions are
modelled by `Option` results and explicit diagnostic lists.
-/

namespace EnemCrawler

/-! ## Character predicates -/

/-- Characters matched by the regex class `[a-z0-9]` used in step 5 of
`normalizar_texto_para_comparacao` (the text has been lowercased at that
point, so no uppercase range is involved). -/
def isLowerAlnum (c : Char) : Bool :=
  (97 ≤ c.toNat && c.toNat ≤ 122) || (48 ≤ c.toNat && c.toNat ≤ 57)

/-- Characters matched by Python's `\s` regex class and stripped by
`str.strip()`: space, tab, newline, carriage return, vertical tab, form
feed. -/
def isPyWs (c : Char) : Bool :=
  c.toNat == 32 || c.toNat == 9 || c.toNat == 10 ||
  c.toNat == 13 || c.toNat == 11 || c.toNat == 12

/-! ## Step 1: special characters and HTML entities -/

/-- Step 1a, `texto.replace("&nbsp;", " ")`: left-to-right, non-overlapping
replacement of the six-character entity by a single space. -/
def replaceNbsp : List Char → List Char
  | '&' :: 'n' :: 'b' :: 's' :: 'p' :: ';' :: rest => ' ' :: replaceNbsp rest
  | c :: cs => c :: replaceNbsp cs
  | [] => []

/-- Step 1b, `texto.replace("–", "-")`: the en-dash (U+2013) becomes a plain
hyphen. -/
def endashToHyphen (c : Char) : Char :=
  if c.toNat == 8211 then '-' else c

/-! ## Step 2: ordinal indicators -/

/-- Step 2, `texto.replace("º", "").replace("ª", "")`: the masculine (U+00BA)
and feminine (U+00AA) ordinal indicators are removed outright. -/
def isOrdinalIndicator (c : Char) : Bool :=
  c.toNat == 186 || c.toNat == 170

/-! ## Step 3: NFD decomposition plus ASCII re-encoding -/

/-- Lookup table for
`unicodedata.normalize("NFD", ·).encode("ascii", "ignore")` restricted
to the Latin-1 letters that occur in the page labels this program
compares: each accented letter decomposes into its base letter followed
by combining marks, and the marks (being non-ASCII) are discarded by
the `ignore` re-encoding. -/
def latinFoldTable : List (Nat × Char) :=
  [(192, 'A'), (193, 'A'), (194, 'A'), (195, 'A'), (196, 'A'), (197, 'A'),
   (199, 'C'),
   (200, 'E'), (201, 'E'), (202, 'E'), (203, 'E'),
   (204, 'I'), (205, 'I'), (206, 'I'), (207, 'I'),
   (209, 'N'),
   (210, 'O'), (211, 'O'), (212, 'O'), (213, 'O'), (214, 'O'),
   (217, 'U'), (218, 'U'), (219, 'U'), (220, 'U'),
   (221, 'Y'),
   (224, 'a'), (225, 'a'), (226, 'a'), (227, 'a'), (228, 'a'), (229, 'a'),
   (231, 'c'),
   (232, 'e'), (233, 'e'), (234, 'e'), (235, 'e'),
   (236, 'i'), (237, 'i'), (238, 'i'), (239, 'i'),
   (241, 'n'),
   (242, 'o'), (243, 'o'), (244, 'o'), (245, 'o'), (246, 'o'),
   (249, 'u'), (250, 'u'), (251, 'u'), (252, 'u'),
   (253, 'y'), (255, 'y')]

/-- One character's fate under NFD decomposition followed by
ASCII-with-ignore re-encoding: ASCII characters survive unchanged,
tabled accented letters fold to their base letter, every other
non-ASCII character is dropped (exactly what `ignore` does to a
character with no ASCII canonical base). -/
def nfdAsciiFold (c : Char) : List Char :=
  if c.toNat < 128 then [c]
  else
    match latinFoldTable.lookup c.toNat with
    | some b => [b]
    | none => []

/-! ## Step 4: lowercase -/

/-- Step 4, `str.lower()`, at the point of use: the string is pure ASCII after
step 3, so only the ASCII uppercase range is affected. -/
def asciiLower (c : Char) : Char :=
  if 65 ≤ c.toNat && c.toNat ≤ 90 then Char.ofNat (c.toNat + 32) else c

/-! ## Step 5: `re.sub(r"[^a-z0-9]+", " ", texto)` -/

/-- Replace every maximal run of characters outside `[a-z0-9]` by a
single space; the flag says whether the scan currently stands inside
such a run (whose single space has already been emitted). -/
def squashAux (inRun : Bool) : List Char → List Char
  | [] => []
  | c :: cs =>
    if isLowerAlnum c then c :: squashAux false cs
    else if inRun then squashAux true cs
    else ' ' :: squashAux true cs

/-- Step 5, `re.sub(r"[^a-z0-9]+", " ", texto)`: every maximal run of
characters outside `[a-z0-9]` becomes a single space. -/
def squashNonAlnum (l : List Char) : List Char :=
  squashAux false l

/-! ## Step 6: `re.sub(r"\s+", " ", texto).strip()` -/

/-- Replace every maximal whitespace run by a single space; the flag
says whether the scan currently stands inside such a run. -/
def collapseAux (inRun : Bool) : List Char → List Char
  | [] => []
  | c :: cs =>
    if isPyWs c then
      if inRun then collapseAux true cs
      else ' ' :: collapseAux true cs
    else c :: collapseAux false cs

/-- Step 6a, `re.sub(r"\s+", " ", texto)`: every maximal whitespace run becomes
a single space. -/
def collapseWs (l : List Char) : List Char :=
  collapseAux false l

/-- Remove trailing whitespace. -/
def stripTrail : List Char → List Char
  | [] => []
  | c :: cs =>
    match stripTrail cs with
    | [] => if isPyWs c then [] else [c]
    | d :: ds => c :: d :: ds

/-- Step 6b, `str.strip()`: remove leading and trailing whitespace. -/
def stripWs (l : List Char) : List Char :=
  stripTrail (l.dropWhile isPyWs)

/-! ## The normalizer -/

/-- The function `normalizar_texto_para_comparacao` on a non-`None` argument, at the
level of character lists: the six steps of the source function in their
fixed order. -/
def normList (t : List Char) : List Char :=
  stripWs (collapseWs (squashNonAlnum
    ((((replaceNbsp t).map endashToHyphen).filter
        (fun c => !isOrdinalIndicator c)).flatMap nfdAsciiFold
      |>.map asciiLower)))

/-- The normalizer `normalizar_texto_para_comparacao(texto)`: `None` maps to the empty
string, any other string goes through the six normalization steps. -/
def normalizar_texto_para_comparacao : Option (List Char) → List Char
  | none => []
  | some t => normList t

/-- String-level wrapper used in concrete statements. -/
def normalizeStr (s : String) : String :=
  ⟨normList s.data⟩

/-! ## Canonical form of normalized text

A normalized string consists of lowercase alphanumerics and single
spaces, with no leading, trailing or doubled space; the following
predicates express that shape. -/

/-- Characters a normalized string may contain. -/
def isCanonChar (c : Char) : Bool :=
  isLowerAlnum c || c == ' '

/-- Whether a string starts with a whitespace character. -/
def headIsWs : List Char → Bool
  | [] => false
  | c :: _ => isPyWs c

/-- No two adjacent whitespace characters. -/
def noAdjWs : List Char → Bool
  | [] => true
  | c :: cs => !(isPyWs c && headIsWs cs) && noAdjWs cs

/-- Whether a string ends with a whitespace character. -/
def trailIsWs : List Char → Bool
  | [] => false
  | [c] => isPyWs c
  | _ :: c :: cs => trailIsWs (c :: cs)

/-! ## Substring containment (Python's `in` operator on strings) -/

/-- Whether `p` is an initial segment of `s`. -/
def startsWithChars : List Char → List Char → Bool
  | [], _ => true
  | _ :: _, [] => false
  | p :: ps, c :: cs => p == c && startsWithChars ps cs

/-- Python's `needle in haystack` for strings: `needle` occurs as a
contiguous substring of `haystack` (the empty needle always occurs). -/
def containsSub (haystack needle : List Char) : Bool :=
  match haystack with
  | [] => needle.isEmpty
  | _ :: rest => startsWithChars needle haystack || containsSub rest needle

/-! ## Callout locator (`p.callout` scan in `_extrair_prova_gabarito_links`) -/

/-- Whether a callout element's normalized text contains every required
keyword as a substring — the loop condition
`all(keyword in normalized_element_text for keyword in keywords_to_match)`. -/
def calloutMatches (keywords : List (List Char)) (text : List Char) : Bool :=
  keywords.all (fun k => containsSub (normList text) k)

/-! ## The page DOM and the sibling link harvester -/

/-- A rendered DOM node: tag name, own text (the string value Selenium
reports for `element.text` / that XPath `contains(., s)` inspects for
anchors), the `href` attribute, and the child nodes in document order. -/
inductive Node where
  | mk (tag : String) (text : String) (href : String) (kids : List Node)
deriving Repr

/-- Tag of a node. -/
def Node.tag : Node → String
  | .mk t _ _ _ => t

/-- Child nodes of a node. -/
def Node.kids : Node → List Node
  | .mk _ _ _ k => k

mutual

/-- Anchors (`(text, href)` pairs) in a subtree, document order, the
root included when it is itself an `a` element. -/
def anchorsInSubtree : Node → List (String × String)
  | .mk tag text href kids =>
    (if tag == "a" then [(text, href)] else []) ++ anchorsInForest kids

/-- Anchors of a forest of subtrees, document order. -/
def anchorsInForest : List Node → List (String × String)
  | [] => []
  | n :: ns => anchorsInSubtree n ++ anchorsInForest ns

end

/-- Anchors among the strict descendants of a node — what `ul//a` or
`div//a` selects relative to the `ul`/`div`. -/
def anchorsUnder (n : Node) : List (String × String) :=
  anchorsInForest n.kids

/-- The tree context of a located callout that the combined XPath of
`_extrair_prova_gabarito_links` can reach: the callout's following
siblings and the callout's parent's following siblings, each in
document order. -/
structure CalloutCtx where
  followingSiblings : List Node
  parentFollowingSiblings : List Node
deriving Repr

/-- Anchors one following sibling contributes to the combined XPath
result: the sibling's descendant anchors when the sibling is a `ul` or
a `div`, nothing otherwise. -/
def siblingAnchors (n : Node) : List (String × String) :=
  if n.tag == "ul" || n.tag == "div" then anchorsUnder n else []

/-- The harvest the source code performs: one `find_elements` call on
the XPath union
`./following-sibling::ul//a | ./following-sibling::div//a |
./parent::*/following-sibling::ul//a | ./parent::*/following-sibling::div//a`.
A WebDriver XPath query returns the matched nodes in document order, so
the result walks the callout's following siblings in order (each
contributing its descendant anchors when it is a `ul` or `div`) and
then the parent's following siblings likewise. -/
def harvestLinks (ctx : CalloutCtx) : List (String × String) :=
  ctx.followingSiblings.flatMap siblingAnchors ++
    ctx.parentFollowingSiblings.flatMap siblingAnchors

/-- One of the four probes of the spec's harvester: the anchors under
following siblings carrying one specific container tag. -/
def probeAnchors (siblings : List Node) (tagName : String) :
    List (String × String) :=
  (siblings.filter (fun n => n.tag == tagName)).flatMap anchorsUnder

/-- Modelled from the spec (§4.3), for comparison with `harvestLinks`:
the four probes concatenated in the spec's fixed order — list-like
siblings of the callout, block-like siblings of the callout, list-like
siblings of the parent, block-like siblings of the parent. -/
def harvestLinksSpecOrder (ctx : CalloutCtx) : List (String × String) :=
  probeAnchors ctx.followingSiblings "ul" ++
    probeAnchors ctx.followingSiblings "div" ++
    probeAnchors ctx.parentFollowingSiblings "ul" ++
    probeAnchors ctx.parentFollowingSiblings "div"

/-! ## Link classifier -/

/-- Python truthiness of the latch variables `prova_link_found` /
`gabarito_link_found`: `None` and the empty string are falsy. -/
def truthy : Option (List Char) → Bool
  | none => false
  | some h => !h.isEmpty

/-- The exam branch at one anchor:
`if "prova" in normalized_text and not prova_link_found`. -/
def provaStep (t : List Char) (p : Option (List Char)) (href : List Char) :
    Option (List Char) :=
  if containsSub t "prova".data && !truthy p then some href else p

/-- The answer-key branch at one anchor — an `elif`, so it runs only
when the exam branch did not fire:
`elif "gabarito" in normalized_text and not gabarito_link_found`. -/
def gabaritoStep (t : List Char) (p g : Option (List Char))
    (href : List Char) : Option (List Char) :=
  if !(containsSub t "prova".data && !truthy p) &&
      (containsSub t "gabarito".data && !truthy g) then some href else g

/-- The classification loop of `_extrair_prova_gabarito_links`: scan
the harvested `(text, href)` anchors once, in order, applying the exam
branch and then the answer-key `elif` branch; break once both latches
are truthy. -/
def classifyLoop :
    List (List Char × List Char) → Option (List Char) →
      Option (List Char) → Option (List Char) × Option (List Char)
  | [], p, g => (p, g)
  | (text, href) :: rest, p, g =>
    if truthy (provaStep (normList text) p href) &&
        truthy (gabaritoStep (normList text) p g href) then
      (provaStep (normList text) p href,
        gabaritoStep (normList text) p g href)
    else
      classifyLoop rest (provaStep (normList text) p href)
        (gabaritoStep (normList text) p g href)

/-- Entry point of the classification scan: both latches start unset. -/
def classifyLinks (links : List (List Char × List Char)) :
    Option (List Char) × Option (List Char) :=
  classifyLoop links none none

/-- Declarative first-match selector for the exam kind: the first
harvested anchor whose normalized text contains `"prova"`. -/
def firstProvaAnchor (links : List (List Char × List Char)) :
    Option (List Char) :=
  (links.find? (fun l => containsSub (normList l.1) "prova".data)).map
    (fun l => l.2)

/-- Declarative selector for the answer-key kind under the rule the
code's `elif` actually implements: the first anchor whose normalized
text contains `"gabarito"` and at which the exam branch does not fire —
that is, whose text lacks `"prova"` or which comes after some
`"prova"`-bearing anchor (the flag records whether one occurred
earlier). Depends only on the anchors' texts, not on latched values. -/
def gabSelAux (provaSeen : Bool) :
    List (List Char × List Char) → Option (List Char)
  | [] => none
  | (text, href) :: rest =>
    let t := normList text
    if containsSub t "gabarito".data &&
        (provaSeen || !containsSub t "prova".data) then some href
    else gabSelAux (provaSeen || containsSub t "prova".data) rest

/-! ## Diagnostics and link records -/

/-- One extracted download link: the dictionary
`{"ano": ..., "tipo": ..., "url": ...}` appended to the result list. -/
structure LinkRecord where
  ano : String
  tipo : String
  url : String
deriving Repr, DecidableEq

/-- The messages `_extrair_prova_gabarito_links` and
`extrair_links_provas_e_gabaritos` append to the process-wide `REPORTS`
list, one constructor per distinct message shape. -/
inductive Diag where
  | calloutNotFound (desc : String)
  | provaNotFound (desc : String)
  | gabaritoNotFound (desc : String)
  | temaNotFound (ano : String)
  | unexpectedError (desc : String)
deriving Repr, DecidableEq

/-! ## Per-category extraction (`_extrair_prova_gabarito_links`) -/

/-- A `p.callout` element of the year-scope together with the tree
context its combined-XPath link search operates on. -/
structure CalloutElem where
  text : String
  ctx : CalloutCtx
deriving Repr

/-- The callout scan: `find_elements("p.callout")` enumerated in
document order, returning the first element whose normalized text
contains every required keyword, `none` when no element qualifies (the
source then raises `NoSuchElementException`, caught by the same
function's handler). -/
def findCallout (callouts : List CalloutElem) (keywords : List (List Char)) :
    Option CalloutElem :=
  callouts.find? (fun e => calloutMatches keywords e.text.data)

/-- Record/diagnostic assembly after the classification scan: the exam
record (when its latch is truthy) is appended before the answer-key
record; each missing kind contributes one warning diagnostic. -/
def buildRecords (p g : Option (List Char)) (ano tipoBase desc : String) :
    List LinkRecord × List Diag :=
  ((match p with
    | some h =>
      if h.isEmpty then [] else [⟨ano, tipoBase ++ "_prova_azul", ⟨h⟩⟩]
    | none => []) ++
   (match g with
    | some h =>
      if h.isEmpty then [] else [⟨ano, tipoBase ++ "_gabarito_azul", ⟨h⟩⟩]
    | none => []),
   (if truthy p then [] else [Diag.provaNotFound desc]) ++
     (if truthy g then [] else [Diag.gabaritoNotFound desc]))

/-- The function `_extrair_prova_gabarito_links(container, description, keywords,
ano, tipo_base)`: locate the callout (a missing callout raises
`NoSuchElementException`, caught by the function's own handler, which
records one warning and returns the empty link list), harvest the
sibling anchors through the combined XPath, classify them, and build
records and diagnostics. -/
def extrairProvaGabaritoLinks (callouts : List CalloutElem)
    (desc : String) (keywords : List (List Char)) (ano tipoBase : String) :
    List LinkRecord × List Diag :=
  match findCallout callouts keywords with
  | none => ([], [Diag.calloutNotFound desc])
  | some c =>
    let (p, g) :=
      classifyLinks ((harvestLinks c.ctx).map (fun a => (a.1.data, a.2.data)))
    buildRecords p g ano tipoBase desc

/-! ## Year-scope extraction (`extrair_links_provas_e_gabaritos`) -/

/-- One year tab's content subtree, reduced to what the extraction pass
queries: the `p.callout` elements in document order (each with its
sibling context) and all descendant anchors in document order (for the
essay-theme XPath search). -/
structure YearScope where
  callouts : List CalloutElem
  anchors : List (String × String)
deriving Repr

/-- The raw-text predicate of the essay-theme XPath
`.//a[contains(., 'Tema da Redação')]` — containment on the anchor's
string value, with no normalization. -/
def temaAnchorPred (a : String × String) : Bool :=
  containsSub a.1.data "Tema da Redação".data

/-- The essay-theme block of `extrair_links_provas_e_gabaritos`:
`find_element` returns the first matching anchor of the whole scope and
yields one record; `NoSuchElementException` is caught and yields one
informational diagnostic. -/
def temaRedacaoPart (scope : YearScope) (ano : String) :
    List LinkRecord × List Diag :=
  match scope.anchors.find? temaAnchorPred with
  | some a => ([⟨ano, "reaplicacao_redacao", a.2⟩], [])
  | none => ([], [Diag.temaNotFound ano])

/-- Keywords of the six callout-protocol categories, already normalized,
exactly as the source writes them. -/
def regularD1Keywords : List (List Char) :=
  ["1 dia".data, "caderno 1".data, "azul".data, "aplicacao regular".data]

/-- Keywords for the second regular-application day. -/
def regularD2Keywords : List (List Char) :=
  ["2 dia".data, "caderno 7".data, "azul".data, "aplicacao regular".data]

/-- Keywords for the first digital-application day. -/
def digitalD1Keywords : List (List Char) :=
  ["1 dia".data, "caderno".data, "azul".data, "aplicacao digital".data]

/-- Keywords for the second digital-application day. -/
def digitalD2Keywords : List (List Char) :=
  ["2 dia".data, "caderno".data, "azul".data, "aplicacao digital".data]

/-- Keywords for the first re-application day. -/
def reapD1Keywords : List (List Char) :=
  ["1 dia".data, "caderno 1".data, "azul".data, "reaplicacao ppl".data]

/-- Keywords for the second re-application day. -/
def reapD2Keywords : List (List Char) :=
  ["2 dia".data, "caderno 7".data, "azul".data, "reaplicacao ppl".data]

/-- The function `extrair_links_provas_e_gabaritos(driver, ano)` for a year whose
tab container is present: the categories are processed in the source's
textual order — regular day 1, regular day 2, digital day 1, digital
day 2, then the essay-theme direct anchor search, then re-application
day 1 and day 2 — extending one accumulated record list; diagnostics
accumulate in the same order. -/
def extrairLinksProvasEGabaritos (scope : YearScope) (ano : String) :
    List LinkRecord × List Diag :=
  let r1 := extrairProvaGabaritoLinks scope.callouts
    "1º Dia - Caderno 1 - Azul - Aplicação Regular" regularD1Keywords
    ano "regular_d1"
  let r2 := extrairProvaGabaritoLinks scope.callouts
    "2º Dia - Caderno 7 - Azul - Aplicação Regular" regularD2Keywords
    ano "regular_d2"
  let r3 := extrairProvaGabaritoLinks scope.callouts
    "1º Dia - Caderno Azul - Aplicação Digital" digitalD1Keywords
    ano "digital_d1"
  let r4 := extrairProvaGabaritoLinks scope.callouts
    "2º Dia - Caderno Azul - Aplicação Digital" digitalD2Keywords
    ano "digital_d2"
  let r5 := temaRedacaoPart scope ano
  let r6 := extrairProvaGabaritoLinks scope.callouts
    "1º Dia - Caderno 1 - Azul - Reaplicação/PPL" reapD1Keywords
    ano "reaplicacao_d1"
  let r7 := extrairProvaGabaritoLinks scope.callouts
    "2º Dia - Caderno 7 - Azul - Reaplicação/PPL" reapD2Keywords
    ano "reaplicacao_d2"
  (r1.1 ++ r2.1 ++ r3.1 ++ r4.1 ++ r5.1 ++ r6.1 ++ r7.1,
   r1.2 ++ r2.2 ++ r3.2 ++ r4.2 ++ r5.2 ++ r6.2 ++ r7.2)

/-- Index of a record's `tipo` in the catalog order the code actually
produces (the essay theme sits between the digital and re-application
pairs); `tipo` strings outside the catalog map to `7`. -/
def catIndex (tipo : String) : Nat :=
  if tipo == "regular_d1_prova_azul" || tipo == "regular_d1_gabarito_azul" then 0
  else if tipo == "regular_d2_prova_azul" || tipo == "regular_d2_gabarito_azul" then 1
  else if tipo == "digital_d1_prova_azul" || tipo == "digital_d1_gabarito_azul" then 2
  else if tipo == "digital_d2_prova_azul" || tipo == "digital_d2_gabarito_azul" then 3
  else if tipo == "reaplicacao_redacao" then 4
  else if tipo == "reaplicacao_d1_prova_azul" || tipo == "reaplicacao_d1_gabarito_azul" then 5
  else if tipo == "reaplicacao_d2_prova_azul" || tipo == "reaplicacao_d2_gabarito_azul" then 6
  else 7

/-- A sibling context holding one `ul` with a `"Prova"` anchor and a
`"Gabarito"` anchor — the markup shape of a fully populated category. -/
def provaGabaritoCtx (hrefProva hrefGabarito : String) : CalloutCtx :=
  ⟨[Node.mk "ul" "" ""
      [Node.mk "a" "Prova" hrefProva [], Node.mk "a" "Gabarito" hrefGabarito []]],
   []⟩

/-- A year scope on which every one of the seven categories yields its
records: six fully populated callouts plus an essay-theme anchor. -/
def sampleFullScope : YearScope :=
  ⟨[⟨"1º Dia - Caderno 1 - Azul - Aplicação Regular", provaGabaritoCtx "u1" "u2"⟩,
    ⟨"2º Dia - Caderno 7 - Azul - Aplicação Regular", provaGabaritoCtx "u3" "u4"⟩,
    ⟨"1º Dia - Caderno Azul - Aplicação Digital", provaGabaritoCtx "u5" "u6"⟩,
    ⟨"2º Dia - Caderno Azul - Aplicação Digital", provaGabaritoCtx "u7" "u8"⟩,
    ⟨"1º Dia - Caderno 1 - Azul - Reaplicação/PPL", provaGabaritoCtx "u9" "u10"⟩,
    ⟨"2º Dia - Caderno 7 - Azul - Reaplicação/PPL", provaGabaritoCtx "u11" "u12"⟩],
   [("Tema da Redação - Reaplicação", "uT")]⟩

/-! ## Resilient downloader (`baixar_arquivo`) -/

/-- Outcome of one `requests.get` attempt, as the injected environment
decides it: success, a transient `ConnectionError`/`Timeout`, a
non-transient `RequestException`, or any other unexpected exception. -/
inductive AttemptOutcome where
  | success
  | transient
  | reqError
  | unexpected
deriving Repr, DecidableEq

/-- Result of one `baixar_arquivo` call: whether it returned `True`,
how many loop iterations (attempts) ran, and how many times it slept
`delay_between_retries` seconds. -/
structure DlResult where
  ok : Bool
  attempts : Nat
  sleeps : Nat
deriving Repr, DecidableEq

/-- The retry loop `for attempt in range(max_retries)` of
`baixar_arquivo`, from loop index `i` with `sleeps` sleeps already
performed: success returns `True` immediately; a transient error sleeps
and continues when `attempt < max_retries - 1` and otherwise records
the terminal diagnostic and lets the loop run off its range; a
non-transient request error or an unexpected error breaks out of the
loop at once. -/
def dlLoop (inj : Nat → AttemptOutcome) (maxRetries : Nat) (i sleeps : Nat) :
    DlResult :=
  if i < maxRetries then
    match inj i with
    | .success => ⟨true, i + 1, sleeps⟩
    | .transient =>
      if i + 1 < maxRetries then dlLoop inj maxRetries (i + 1) (sleeps + 1)
      else ⟨false, i + 1, sleeps⟩
    | .reqError => ⟨false, i + 1, sleeps⟩
    | .unexpected => ⟨false, i + 1, sleeps⟩
  else ⟨false, i, sleeps⟩
termination_by maxRetries - i
decreasing_by omega

/-- The downloader `baixar_arquivo(url, destino, max_retries, delay)` under the
injected per-attempt outcomes (default `max_retries=3`). -/
def baixar_arquivo (inj : Nat → AttemptOutcome) (maxRetries : Nat := 3) :
    DlResult :=
  dlLoop inj maxRetries 0 0

/-! ## Year-tab discovery (`obter_anos_disponiveis`) -/

/-- The filter of the tab loop: `get_attribute("data-id")` may return
`None`; the guard `if ano and ano != "Sobre"` keeps identifiers that
are non-`None`, non-empty and different from `"Sobre"`. -/
def validTabId : Option String → Option String
  | none => none
  | some s => if s ≠ "" ∧ s ≠ "Sobre" then some s else none

/-- Python's `<` on strings: lexicographic comparison by code point,
a strict prefix comparing smaller. -/
def lexLtChars : List Char → List Char → Bool
  | [], [] => false
  | [], _ :: _ => true
  | _ :: _, [] => false
  | c :: cs, d :: ds =>
    if c.toNat < d.toNat then true
    else if d.toNat < c.toNat then false
    else lexLtChars cs ds

/-- String-level wrapper of the code-point comparison. -/
def lexLtStr (a b : String) : Bool :=
  lexLtChars a.data b.data

/-- Stable descending insertion, matching Python's
`sorted(·, reverse=True)` on a list of distinct-or-equal strings:
an element passes over strictly smaller elements only. -/
def insertDesc (s : String) : List String → List String
  | [] => [s]
  | t :: ts => if lexLtStr t s then s :: t :: ts else t :: insertDesc s ts

/-- Descending sort by repeated insertion. -/
def sortDesc : List String → List String
  | [] => []
  | s :: ss => insertDesc s (sortDesc ss)

/-- The function `obter_anos_disponiveis(driver)`: collect the `data-id` attributes
of the year tabs, keep the truthy ones different from `"Sobre"`, and
return `sorted(anos, reverse=True)`. -/
def obter_anos_disponiveis (tabIds : List (Option String)) : List String :=
  sortDesc (tabIds.filterMap validTabId)

/-- The year order of the main loop
`for ano in anos_disponiveis: ...`: each discovered year is processed
(attempted) once, in list order; no reordering happens between
discovery and the loop. -/
def mainYearTrace (tabIds : List (Option String)) : List String :=
  (obter_anos_disponiveis tabIds).foldr (fun ano acc => ano :: acc) []

/-!
# Theorems

The claim theorems, with their supporting lemmas, witnesses and
counterexamples.
-/

/-- Claim C8: the normalizer maps `None` to the empty string without
failing; `"1º Dia – Caderno 1"` normalizes to `"1 dia caderno 1"`
(ordinal stripped, en-dash and punctuation runs collapsed to single
spaces, trimmed); and `"Aplicação"`, `"aplicacao"` and `"APLICAÇÃO"`
all normalize to `"aplicacao"` (diacritic- and case-insensitive). -/
theorem c8_normalizer_concrete_contract :
    normalizar_texto_para_comparacao none = "".data ∧
    normalizeStr "1º Dia – Caderno 1" = "1 dia caderno 1" ∧
    normalizeStr "Aplicação" = normalizeStr "aplicacao" ∧
    normalizeStr "aplicacao" = normalizeStr "APLICAÇÃO" ∧
    normalizeStr "Aplicação" = "aplicacao" := by
  refine ⟨rfl, ?_, ?_, ?_, ?_⟩ <;> decide

/-- Unfolding lemma for one iteration of the download retry loop while
attempts remain. -/
theorem dlLoop_step (inj : Nat → AttemptOutcome) (maxRetries i sleeps : Nat)
    (h : i < maxRetries) :
    dlLoop inj maxRetries i sleeps =
      match inj i with
      | .success => ⟨true, i + 1, sleeps⟩
      | .transient =>
        if i + 1 < maxRetries then dlLoop inj maxRetries (i + 1) (sleeps + 1)
        else ⟨false, i + 1, sleeps⟩
      | .reqError => ⟨false, i + 1, sleeps⟩
      | .unexpected => ⟨false, i + 1, sleeps⟩ := by
  rw [dlLoop]
  simp [h]

/-- A run all of whose attempts fail transiently exhausts the budget:
from loop index `i` it performs the remaining `maxRetries - i`
attempts, sleeping between consecutive attempts only. -/
theorem dlLoop_all_transient (inj : Nat → AttemptOutcome)
    (hinj : ∀ j, inj j = .transient) :
    ∀ k maxRetries i sleeps, maxRetries - i = k + 1 → i < maxRetries →
      dlLoop inj maxRetries i sleeps =
        ⟨false, maxRetries, sleeps + (maxRetries - 1 - i)⟩ := by
  intro k
  induction k with
  | zero =>
    intro maxRetries i sleeps hk hi
    rw [dlLoop_step inj maxRetries i sleeps hi, hinj i]
    have h1 : ¬ (i + 1 < maxRetries) := by omega
    have h2 : i + 1 = maxRetries := by omega
    have h3 : maxRetries - 1 - i = 0 := by omega
    simp [h1, h2, h3]
  | succ k ih =>
    intro maxRetries i sleeps hk hi
    rw [dlLoop_step inj maxRetries i sleeps hi, hinj i]
    have h1 : i + 1 < maxRetries := by omega
    simp only [h1, if_true]
    rw [ih maxRetries (i + 1) (sleeps + 1) (by omega) h1]
    have : sleeps + 1 + (maxRetries - 1 - (i + 1)) =
        sleeps + (maxRetries - 1 - i) := by omega
    rw [this]

/-- Claim C5: with the default `max_retries=3` and the fixed retry
delay, (i) an injected outcome sequence that fails transiently twice
and then succeeds yields success with exactly 3 attempts (sleeping
twice, the fixed delay each time); (ii) a sequence all of whose
attempts fail transiently yields permanent failure after exactly
`max_retries` attempts, sleeping only between consecutive transient
attempts (`max_retries - 1` sleeps, no backoff growth); (iii) a first
attempt failing with a non-transient request error or any other
unexpected error yields failure after exactly 1 attempt, with no retry
and no sleep, regardless of `max_retries`. -/
theorem c5_downloader_attempt_policy (inj : Nat → AttemptOutcome)
    (maxRetries : Nat) :
    (inj 0 = .transient → inj 1 = .transient → inj 2 = .success →
      baixar_arquivo inj 3 = ⟨true, 3, 2⟩) ∧
    ((∀ j, inj j = .transient) → 1 ≤ maxRetries →
      baixar_arquivo inj maxRetries = ⟨false, maxRetries, maxRetries - 1⟩) ∧
    ((inj 0 = .reqError ∨ inj 0 = .unexpected) → 1 ≤ maxRetries →
      baixar_arquivo inj maxRetries = ⟨false, 1, 0⟩) := by
  refine ⟨?_, ?_, ?_⟩
  · intro h0 h1 h2
    unfold baixar_arquivo
    rw [dlLoop_step inj 3 0 0 (by omega), h0]
    simp only [show (0 + 1 < 3) = True by simp, if_true]
    rw [dlLoop_step inj 3 1 1 (by omega), h1]
    simp only [show (1 + 1 < 3) = True by simp, if_true]
    rw [dlLoop_step inj 3 2 2 (by omega), h2]
  · intro hinj hmax
    unfold baixar_arquivo
    rw [dlLoop_all_transient inj hinj (maxRetries - 1) maxRetries 0 0
      (by omega) (by omega)]
    simp
  · intro h0 hmax
    unfold baixar_arquivo
    rw [dlLoop_step inj maxRetries 0 0 (by omega)]
    rcases h0 with h | h <;> rw [h]

/-- Witness for C5: the three attempt policies evaluated at concrete
injectors and budgets. -/
theorem c5_downloader_attempt_policy_witness :
    baixar_arquivo (fun j => if j < 2 then .transient else .success) 3 =
      ⟨true, 3, 2⟩ ∧
    baixar_arquivo (fun _ => .transient) 4 = ⟨false, 4, 3⟩ ∧
    baixar_arquivo (fun _ => .reqError) 5 = ⟨false, 1, 0⟩ := by
  refine ⟨?_, ?_, ?_⟩
  · exact (c5_downloader_attempt_policy
      (fun j => if j < 2 then .transient else .success) 3).1 rfl rfl rfl
  · exact (c5_downloader_attempt_policy (fun _ => .transient) 4).2.1
      (fun _ => rfl) (by omega)
  · exact (c5_downloader_attempt_policy (fun _ => .reqError) 5).2.2
      (Or.inl rfl) (by omega)

/-- The code-point order is asymmetric. -/
theorem lexLtChars_asymm :
    ∀ x y, lexLtChars x y = true → lexLtChars y x = false := by
  intro x
  induction x with
  | nil =>
    intro y h
    cases y with
    | nil => simp [lexLtChars] at h
    | cons d ds => simp [lexLtChars]
  | cons c cs ih =>
    intro y h
    cases y with
    | nil => simp [lexLtChars] at h
    | cons d ds =>
      simp only [lexLtChars] at h ⊢
      by_cases h1 : c.toNat < d.toNat
      · rw [if_neg (by omega : ¬ d.toNat < c.toNat), if_pos h1]
      · rw [if_neg h1] at h
        by_cases h2 : d.toNat < c.toNat
        · rw [if_pos h2] at h
          simp at h
        · rw [if_neg h2] at h
          rw [if_neg h2, if_neg h1]
          exact ih ds h

/-- The code-point order is transitive. -/
theorem lexLtChars_trans :
    ∀ x y z, lexLtChars x y = true → lexLtChars y z = true →
      lexLtChars x z = true := by
  intro x
  induction x with
  | nil =>
    intro y z hxy hyz
    cases y with
    | nil => simp [lexLtChars] at hxy
    | cons d ds =>
      cases z with
      | nil => simp [lexLtChars] at hyz
      | cons e es => simp [lexLtChars]
  | cons c cs ih =>
    intro y z hxy hyz
    cases y with
    | nil => simp [lexLtChars] at hxy
    | cons d ds =>
      cases z with
      | nil => simp [lexLtChars] at hyz
      | cons e es =>
        simp only [lexLtChars] at hxy hyz ⊢
        by_cases h1 : c.toNat < d.toNat
        · have hde : d.toNat ≤ e.toNat := by
            by_cases h2 : d.toNat < e.toNat
            · omega
            · rw [if_neg h2] at hyz
              by_cases h3 : e.toNat < d.toNat
              · rw [if_pos h3] at hyz
                simp at hyz
              · omega
          rw [if_pos (by omega : c.toNat < e.toNat)]
        · rw [if_neg h1] at hxy
          by_cases h2 : d.toNat < c.toNat
          · rw [if_pos h2] at hxy
            simp at hxy
          · rw [if_neg h2] at hxy
            by_cases h3 : d.toNat < e.toNat
            · rw [if_pos (by omega : c.toNat < e.toNat)]
            · rw [if_neg h3] at hyz
              by_cases h4 : e.toNat < d.toNat
              · rw [if_pos h4] at hyz
                simp at hyz
              · rw [if_neg h4] at hyz
                rw [if_neg (by omega : ¬ c.toNat < e.toNat),
                  if_neg (by omega : ¬ e.toNat < c.toNat)]
                exact ih ds es hxy hyz

/-- Inserting an element is a permutation of prepending it. -/
theorem insertDesc_perm (s : String) :
    ∀ l, (insertDesc s l).Perm (s :: l) := by
  intro l
  induction l with
  | nil => simp [insertDesc]
  | cons t ts ih =>
    simp only [insertDesc]
    split
    · exact List.Perm.refl _
    · exact (List.Perm.cons t ih).trans (List.Perm.swap s t ts)

/-- The descending sort permutes its input. -/
theorem sortDesc_perm : ∀ l, (sortDesc l).Perm l := by
  intro l
  induction l with
  | nil => simp [sortDesc]
  | cons s ss ih =>
    exact (insertDesc_perm s (sortDesc ss)).trans (List.Perm.cons s ih)

/-- Insertion preserves the pairwise descending property. -/
theorem insertDesc_pairwise (s : String) :
    ∀ l, List.Pairwise (fun a b => lexLtChars a.data b.data = false) l →
      List.Pairwise (fun a b => lexLtChars a.data b.data = false)
        (insertDesc s l) := by
  intro l
  induction l with
  | nil =>
    intro _
    simp [insertDesc]
  | cons t ts ih =>
    intro hp
    rw [List.pairwise_cons] at hp
    obtain ⟨hts, hp⟩ := hp
    simp only [insertDesc]
    split
    · rename_i hlt
      rw [List.pairwise_cons]
      constructor
      · intro x hx
        rcases List.mem_cons.mp hx with hx | hx
        · subst hx
          exact lexLtChars_asymm _ _ hlt
        · rcases hb : lexLtChars s.data x.data with _ | _
          · rfl
          · have h2 := lexLtChars_trans _ _ _ hlt hb
            rw [hts x hx] at h2
            cases h2
      · rw [List.pairwise_cons]
        exact ⟨hts, hp⟩
    · rename_i hnlt
      rw [List.pairwise_cons]
      constructor
      · intro x hx
        have := (insertDesc_perm s ts).mem_iff.mp hx
        rcases List.mem_cons.mp this with hx2 | hx2
        · subst hx2
          simp at hnlt
          exact hnlt
        · exact hts x hx2
      · exact ih hp

/-- The descending sort is pairwise descending. -/
theorem sortDesc_pairwise :
    ∀ l, List.Pairwise (fun a b => lexLtChars a.data b.data = false)
      (sortDesc l) := by
  intro l
  induction l with
  | nil => simp [sortDesc]
  | cons s ss ih => exact insertDesc_pairwise s (sortDesc ss) ih

/-- The filter `validTabId` keeps exactly the non-`None`, non-empty identifiers
different from `"Sobre"`. -/
theorem validTabId_eq_some (o : Option String) (s : String) :
    validTabId o = some s ↔ o = some s ∧ s ≠ "" ∧ s ≠ "Sobre" := by
  cases o with
  | none => simp [validTabId]
  | some t =>
    simp only [validTabId]
    split
    · rename_i ht
      constructor
      · intro h
        cases h
        exact ⟨rfl, ht⟩
      · intro ⟨h1, _⟩
        cases h1
        rfl
    · rename_i ht
      constructor
      · intro h
        cases h
      · intro ⟨h1, h2⟩
        cases h1
        exact absurd h2 ht

/-- Claim C10: year discovery keeps exactly the tab identifiers that
are present, non-empty and different from `"Sobre"`; it returns them
sorted in descending code-point order; and the main loop's year trace
is exactly that descending list. -/
theorem c10_year_tab_selection (tabIds : List (Option String)) :
    (obter_anos_disponiveis tabIds).Perm (tabIds.filterMap validTabId) ∧
    List.Pairwise (fun a b => lexLtChars a.data b.data = false)
      (obter_anos_disponiveis tabIds) ∧
    (∀ s, s ∈ obter_anos_disponiveis tabIds ↔
      (some s ∈ tabIds ∧ s ≠ "" ∧ s ≠ "Sobre")) ∧
    mainYearTrace tabIds = obter_anos_disponiveis tabIds := by
  refine ⟨sortDesc_perm _, sortDesc_pairwise _, ?_, ?_⟩
  · intro s
    unfold obter_anos_disponiveis
    rw [(sortDesc_perm (tabIds.filterMap validTabId)).mem_iff,
      List.mem_filterMap]
    constructor
    · intro ⟨o, ho, hv⟩
      have := (validTabId_eq_some o s).mp hv
      exact ⟨this.1 ▸ ho, this.2⟩
    · intro ⟨hmem, h1, h2⟩
      exact ⟨some s, hmem, (validTabId_eq_some (some s) s).mpr ⟨rfl, h1, h2⟩⟩
  · unfold mainYearTrace
    induction obter_anos_disponiveis tabIds with
    | nil => rfl
    | cons a l ih => simp_all

/-- Witness for C10: the selection, ordering and trace properties at a
concrete tab list. -/
theorem c10_year_tab_selection_witness :
    (obter_anos_disponiveis
        [some "2020", none, some "", some "Sobre", some "2024", some "2023"]).Perm
      ([some "2020", none, some "", some "Sobre", some "2024",
        some "2023"].filterMap validTabId) ∧
    List.Pairwise (fun a b => lexLtChars a.data b.data = false)
      (obter_anos_disponiveis
        [some "2020", none, some "", some "Sobre", some "2024", some "2023"]) ∧
    (∀ s, s ∈ obter_anos_disponiveis
        [some "2020", none, some "", some "Sobre", some "2024", some "2023"] ↔
      (some s ∈ [some "2020", none, some "", some "Sobre", some "2024",
        some "2023"] ∧ s ≠ "" ∧ s ≠ "Sobre")) ∧
    mainYearTrace
        [some "2020", none, some "", some "Sobre", some "2024", some "2023"] =
      obter_anos_disponiveis
        [some "2020", none, some "", some "Sobre", some "2024", some "2023"] :=
  c10_year_tab_selection
    [some "2020", none, some "", some "Sobre", some "2024", some "2023"]

/-- First-match decomposition for `List.find?`. -/
theorem find?_some_split {α : Type} (p : α → Bool) :
    ∀ (l : List α) (a : α), l.find? p = some a →
      p a = true ∧ ∃ pre suf, l = pre ++ a :: suf ∧
        ∀ x ∈ pre, p x = false := by
  intro l
  induction l with
  | nil =>
    intro a h
    simp [List.find?] at h
  | cons b bs ih =>
    intro a h
    rw [List.find?] at h
    rcases hb : p b with _ | _
    · rw [hb] at h
      obtain ⟨hpa, pre, suf, heq, hpre⟩ := ih a h
      refine ⟨hpa, b :: pre, suf, by rw [heq]; rfl, ?_⟩
      intro x hx
      rcases List.mem_cons.mp hx with hx | hx
      · subst hx
        exact hb
      · exact hpre x hx
    · rw [hb] at h
      cases h
      exact ⟨hb, [], bs, rfl, by intro x hx; cases hx⟩

/-- Claim C1: for every scope and every ordered set of required
normalized keywords, the callout locator scans the scope's
callout-class elements in document order and (a) returns `none` — a
soft outcome handled inside the extraction function, not an exception
escaping the call — exactly when no element's normalized text contains
every required keyword as a substring, and (b) whenever it returns an
element, that element matches all keywords and every element before it
in document order fails some keyword (first match wins). -/
theorem c1_callout_locator (callouts : List CalloutElem)
    (keywords : List (List Char)) :
    (findCallout callouts keywords = none ↔
      ∀ e ∈ callouts, calloutMatches keywords e.text.data = false) ∧
    (∀ e, findCallout callouts keywords = some e →
      calloutMatches keywords e.text.data = true ∧
      ∃ pre suf, callouts = pre ++ e :: suf ∧
        ∀ x ∈ pre, calloutMatches keywords x.text.data = false) := by
  constructor
  · unfold findCallout
    rw [List.find?_eq_none]
    constructor
    · intro h e he
      have := h e he
      simp only [Bool.not_eq_true] at this
      exact this
    · intro h e he
      rw [h e he]
      simp
  · intro e he
    exact find?_some_split _ callouts e he

/-- Witness for C1: at a concrete scope whose second element is the
first match, the locator returns it and reports the first element as a
non-match; and on a scope with no match it returns `none`. -/
theorem c1_callout_locator_witness :
    (calloutMatches ["azul".data] "Caderno Amarelo".data = false →
      findCallout [⟨"Caderno Amarelo", ⟨[], []⟩⟩] ["azul".data] = none) ∧
    (calloutMatches ["azul".data]
        "1º Dia - Caderno 1 - Azul - Aplicação Regular".data = true ∧
      ∃ pre suf,
        ([⟨"Caderno Amarelo", ⟨[], []⟩⟩,
          ⟨"1º Dia - Caderno 1 - Azul - Aplicação Regular", ⟨[], []⟩⟩] :
            List CalloutElem) =
          pre ++ (⟨"1º Dia - Caderno 1 - Azul - Aplicação Regular",
            ⟨[], []⟩⟩ : CalloutElem) :: suf ∧
        ∀ x ∈ pre, calloutMatches ["azul".data] x.text.data = false) := by
  constructor
  · intro h
    exact (c1_callout_locator [⟨"Caderno Amarelo", ⟨[], []⟩⟩]
      ["azul".data]).1.mpr (by intro e he; simp at he; rw [he]; exact h)
  · exact (c1_callout_locator
      [⟨"Caderno Amarelo", ⟨[], []⟩⟩,
       ⟨"1º Dia - Caderno 1 - Azul - Aplicação Regular", ⟨[], []⟩⟩]
      ["azul".data]).2
      ⟨"1º Dia - Caderno 1 - Azul - Aplicação Regular", ⟨[], []⟩⟩
      rfl

/-- Truthiness of a non-empty latched href. -/
theorem truthy_some {h : List Char} (hh : h ≠ []) : truthy (some h) = true := by
  cases h with
  | nil => exact absurd rfl hh
  | cons c cs => rfl

/-- The exam latch of the classification loop: once truthy it is never
overwritten, and while unset it takes the first anchor whose normalized
text contains `"prova"`. -/
theorem classifyLoop_fst (links : List (List Char × List Char)) :
    ∀ p g, (p = none ∨ ∃ hv, p = some hv ∧ hv ≠ []) →
      (∀ l ∈ links, l.2 ≠ []) →
      (classifyLoop links p g).1 =
        if truthy p then p else firstProvaAnchor links := by
  induction links with
  | nil =>
    intro p g hp _
    rcases hp with rfl | ⟨hv, rfl, hh⟩
    · simp [classifyLoop, truthy, firstProvaAnchor]
    · simp [classifyLoop, truthy_some hh]
  | cons l rest ih =>
    obtain ⟨text, href⟩ := l
    intro p g hp hne
    have hhref : href ≠ [] := hne (text, href) (List.mem_cons_self _ _)
    have hne2 : ∀ l ∈ rest, l.2 ≠ [] :=
      fun l hl => hne l (List.mem_cons_of_mem _ hl)
    cases htp : truthy p with
    | true =>
      -- exam latch already set: the head's exam branch never fires
      have hps : provaStep (normList text) p href = p := by
        simp [provaStep, htp]
      rw [classifyLoop, hps]
      split
      · simp [htp]
      · rw [ih p _ hp hne2]
        simp [htp]
    | false =>
      have hpn : p = none := by
        rcases hp with rfl | ⟨hv, rfl, hh⟩
        · rfl
        · rw [truthy_some hh] at htp
          cases htp
      subst hpn
      cases hcp : containsSub (normList text) "prova".data with
      | true =>
        -- head is the first exam anchor
        have hps : provaStep (normList text) none href = some href := by
          simp [provaStep, hcp, truthy]
        have hfp : firstProvaAnchor ((text, href) :: rest) = some href := by
          simp [firstProvaAnchor, List.find?, hcp]
        rw [classifyLoop, hps, hfp]
        split
        · simp [truthy]
        · rw [ih (some href) _ (Or.inr ⟨href, rfl, hhref⟩) hne2]
          simp [truthy_some hhref]
      | false =>
        -- head is not an exam anchor
        have hps : provaStep (normList text) none href = none := by
          simp [provaStep, hcp]
        have hfp : firstProvaAnchor ((text, href) :: rest) =
            firstProvaAnchor rest := by
          simp [firstProvaAnchor, List.find?, hcp]
        rw [classifyLoop, hps, hfp]
        have hbr : (truthy (none : Option (List Char)) &&
            truthy (gabaritoStep (normList text) none g href)) = false := rfl
        rw [hbr]
        simp only [Bool.false_eq_true, if_false]
        rw [ih none _ (Or.inl rfl) hne2]
        simp [truthy]

/-- The answer-key latch of the classification loop: once truthy it is
never overwritten, and while unset it takes the anchor selected by
`gabSelAux`, seeded with whether the exam latch is already truthy. -/
theorem classifyLoop_snd (links : List (List Char × List Char)) :
    ∀ p g, (g = none ∨ ∃ hv, g = some hv ∧ hv ≠ []) →
      (∀ l ∈ links, l.2 ≠ []) →
      (classifyLoop links p g).2 =
        if truthy g then g else gabSelAux (truthy p) links := by
  induction links with
  | nil =>
    intro p g hg _
    rcases hg with rfl | ⟨hv, rfl, hh⟩
    · simp [classifyLoop, truthy, gabSelAux]
    · simp [classifyLoop, truthy_some hh]
  | cons l rest ih =>
    obtain ⟨text, href⟩ := l
    intro p g hg hne
    have hhref : href ≠ [] := hne (text, href) (List.mem_cons_self _ _)
    have hne2 : ∀ l ∈ rest, l.2 ≠ [] :=
      fun l hl => hne l (List.mem_cons_of_mem _ hl)
    cases htg : truthy g with
    | true =>
      -- answer-key latch already set: the head's elif never fires
      have hgs : gabaritoStep (normList text) p g href = g := by
        simp [gabaritoStep, htg]
      rw [classifyLoop, hgs]
      split
      · simp [htg]
      · rw [ih _ g hg hne2]
        simp [htg]
    | false =>
      have hgn : g = none := by
        rcases hg with rfl | ⟨hv, rfl, hh⟩
        · rfl
        · rw [truthy_some hh] at htg
          cases htg
      subst hgn
      have htn : truthy (none : Option (List Char)) = false := rfl
      cases htp : truthy p with
      | true =>
        -- exam latch set: the elif is gated only by the keyword
        have hps : provaStep (normList text) p href = p := by
          simp [provaStep, htp]
        cases hcg : containsSub (normList text) "gabarito".data with
        | true =>
          have hgs : gabaritoStep (normList text) p none href = some href := by
            simp [gabaritoStep, htp, hcg, htn]
          have hsel : gabSelAux true ((text, href) :: rest) = some href := by
            simp [gabSelAux, hcg]
          have hbr : (truthy p && truthy (some href)) = true := by
            simp [htp, truthy_some hhref]
          rw [classifyLoop, hps, hgs, hbr]
          simp [htn, htp, hsel]
        | false =>
          have hgs : gabaritoStep (normList text) p none href = none := by
            simp [gabaritoStep, hcg]
          have hsel : gabSelAux true ((text, href) :: rest) =
              gabSelAux true rest := by
            simp [gabSelAux, hcg]
          have hbr : (truthy p && truthy (none : Option (List Char))) =
              false := by simp [htn]
          rw [classifyLoop, hps, hgs, hbr]
          simp only [Bool.false_eq_true, if_false]
          rw [ih p none (Or.inl rfl) hne2]
          simp [htn, htp, hsel]
      | false =>
        cases hcp : containsSub (normList text) "prova".data with
        | true =>
          -- exam branch fires at the head: the elif is skipped
          have hps : provaStep (normList text) p href = some href := by
            simp [provaStep, hcp, htp]
          have hgs : gabaritoStep (normList text) p none href = none := by
            simp [gabaritoStep, hcp, htp]
          have hsel : gabSelAux false ((text, href) :: rest) =
              gabSelAux true rest := by
            simp [gabSelAux, hcp]
          have hbr : (truthy (some href) &&
              truthy (none : Option (List Char))) = false := by
            simp [htn]
          rw [classifyLoop, hps, hgs, hbr]
          simp only [Bool.false_eq_true, if_false]
          rw [ih (some href) none (Or.inl rfl) hne2]
          simp [htn, htp, hsel, truthy_some hhref]
        | false =>
          -- head lacks the exam keyword
          have hps : provaStep (normList text) p href = p := by
            simp [provaStep, hcp]
          cases hcg : containsSub (normList text) "gabarito".data with
          | true =>
            have hgs : gabaritoStep (normList text) p none href =
                some href := by
              simp [gabaritoStep, hcp, hcg, htn]
            have hsel : gabSelAux false ((text, href) :: rest) =
                some href := by
              simp [gabSelAux, hcp, hcg]
            have hbr : (truthy p && truthy (some href)) = false := by
              simp [htp]
            rw [classifyLoop, hps, hgs, hbr]
            simp only [Bool.false_eq_true, if_false]
            rw [ih p (some href) (Or.inr ⟨href, rfl, hhref⟩) hne2]
            simp [htn, htp, hsel, truthy_some hhref]
          | false =>
            have hgs : gabaritoStep (normList text) p none href = none := by
              simp [gabaritoStep, hcg]
            have hsel : gabSelAux false ((text, href) :: rest) =
                gabSelAux false rest := by
              simp [gabSelAux, hcp, hcg]
            have hbr : (truthy p && truthy (none : Option (List Char))) =
                false := by simp [htn]
            rw [classifyLoop, hps, hgs, hbr]
            simp only [Bool.false_eq_true, if_false]
            rw [ih p none (Or.inl rfl) hne2]
            simp [htn, htp, hsel]

/-- Where `gabSelAux` finds an answer-key anchor, that anchor contains
the keyword, the exam branch cannot fire there, and the returned href
is that anchor's. -/
theorem gabSelAux_some (links : List (List Char × List Char)) :
    ∀ b h, gabSelAux b links = some h →
      ∃ pre t suf, links = pre ++ (t, h) :: suf ∧
        containsSub (normList t) "gabarito".data = true ∧
        ((b || !containsSub (normList t) "prova".data) = true ∨
          ∃ l ∈ pre, containsSub (normList l.1) "prova".data = true) := by
  induction links with
  | nil =>
    intro b h hx
    simp [gabSelAux] at hx
  | cons l rest ih =>
    obtain ⟨text, href⟩ := l
    intro b h hx
    rw [gabSelAux] at hx
    split at hx
    · rename_i hcond
      simp only [Bool.and_eq_true] at hcond
      cases hx
      exact ⟨[], text, rest, rfl, hcond.1, Or.inl hcond.2⟩
    · obtain ⟨pre, t, suf, heq, hcg, hrest⟩ := ih _ h hx
      refine ⟨(text, href) :: pre, t, suf,
        by rw [heq, List.cons_append], hcg, ?_⟩
      rcases hrest with hb | ⟨l2, hl2, hcp2⟩
      · simp only [Bool.or_eq_true] at hb
        rcases hb with (hb | hcp) | hnp
        · exact Or.inl (by simp [hb])
        · exact Or.inr ⟨(text, href), List.mem_cons_self _ _, hcp⟩
        · exact Or.inl (by simp [hnp])
      · exact Or.inr ⟨l2, List.mem_cons_of_mem _ hl2, hcp2⟩

/-- Counterexample to C2 as stated: a single harvested anchor whose
normalized text contains both keywords. It is the first anchor whose
normalized text contains the answer-key keyword, yet the classifier
assigns no answer-key URL (the `elif` is skipped once the exam branch
fires), so the latches are not independent. -/
theorem c2_counterexample :
    containsSub (normList "Prova e Gabarito".data) "gabarito".data = true ∧
    (classifyLinks [("Prova e Gabarito".data, "u".data)]).1 =
      some "u".data ∧
    (classifyLinks [("Prova e Gabarito".data, "u".data)]).2 = none := by
  refine ⟨by decide, by decide, by decide⟩

/-- Claim C2, amended: scanning the harvested anchors once in order
(hrefs non-empty), the exam URL latches on the first anchor whose
normalized text contains the exam keyword; the answer-key URL latches
on the first anchor whose normalized text contains the answer-key
keyword *and at which the exam branch does not fire* — its text lacks
the exam keyword, or some earlier anchor carries it (so one anchor
containing both keywords feeds only the exam latch when that latch is
still unset); each kind latches at most once; and a kind absent at the
end of the scan yields its soft warning diagnostic without blocking
the record of the other kind. -/
theorem c2_link_classifier_amended (links : List (List Char × List Char))
    (hne : ∀ l ∈ links, l.2 ≠ []) :
    (classifyLinks links).1 = firstProvaAnchor links ∧
    (classifyLinks links).2 = gabSelAux false links ∧
    (∀ h, (classifyLinks links).2 = some h →
      ∃ pre t suf, links = pre ++ (t, h) :: suf ∧
        containsSub (normList t) "gabarito".data = true ∧
        (containsSub (normList t) "prova".data = false ∨
          ∃ l ∈ pre, containsSub (normList l.1) "prova".data = true)) ∧
    (∀ p ano base desc,
      Diag.gabaritoNotFound desc ∈ (buildRecords p none ano base desc).2) ∧
    (∀ g ano base desc,
      Diag.provaNotFound desc ∈ (buildRecords none g ano base desc).2) := by
  have h1 : (classifyLinks links).1 = firstProvaAnchor links := by
    rw [classifyLinks, classifyLoop_fst links none none (Or.inl rfl) hne]
    rfl
  have h2 : (classifyLinks links).2 = gabSelAux false links := by
    rw [classifyLinks, classifyLoop_snd links none none (Or.inl rfl) hne]
    rfl
  refine ⟨h1, h2, ?_, ?_, ?_⟩
  · intro h hx
    rw [h2] at hx
    obtain ⟨pre, t, suf, heq, hcg, hrest⟩ := gabSelAux_some links false h hx
    refine ⟨pre, t, suf, heq, hcg, ?_⟩
    rcases hrest with hb | hex
    · simp only [Bool.false_or, Bool.not_eq_true'] at hb
      exact Or.inl hb
    · exact Or.inr hex
  · intro p ano base desc
    simp only [buildRecords, truthy]
    apply List.mem_append_right
    simp
  · intro g ano base desc
    simp only [buildRecords, truthy]
    apply List.mem_append_left
    simp

/-- Witness for C2 (amended): three anchors, the first carrying both
keywords, the second only the exam keyword, the third only the
answer-key keyword — the exam latch takes the first anchor's href and
the answer-key latch the third's. -/
theorem c2_link_classifier_amended_witness :
    (classifyLinks [("Gabarito e Prova".data, "a".data),
        ("Prova".data, "b".data), ("Gabarito".data, "c".data)]).1 =
      firstProvaAnchor [("Gabarito e Prova".data, "a".data),
        ("Prova".data, "b".data), ("Gabarito".data, "c".data)] ∧
    (classifyLinks [("Gabarito e Prova".data, "a".data),
        ("Prova".data, "b".data), ("Gabarito".data, "c".data)]).1 =
      some "a".data ∧
    (classifyLinks [("Gabarito e Prova".data, "a".data),
        ("Prova".data, "b".data), ("Gabarito".data, "c".data)]).2 =
      some "c".data := by
  refine ⟨(c2_link_classifier_amended
    [("Gabarito e Prova".data, "a".data), ("Prova".data, "b".data),
      ("Gabarito".data, "c".data)] (by decide)).1, by decide, by decide⟩

/-- Claim C9: whenever a category processed through the callout/keyword
protocol latches both kinds, the exam record is appended to the result
before the answer-key record — whatever the order in which the exam and
answer-key anchors were harvested. -/
theorem c9_exam_record_before_key (callouts : List CalloutElem)
    (desc : String) (keywords : List (List Char)) (ano base : String)
    (c : CalloutElem)
    (hc : findCallout callouts keywords = some c)
    (hp : truthy (classifyLinks ((harvestLinks c.ctx).map
      (fun a => (a.1.data, a.2.data)))).1 = true)
    (hg : truthy (classifyLinks ((harvestLinks c.ctx).map
      (fun a => (a.1.data, a.2.data)))).2 = true) :
    (extrairProvaGabaritoLinks callouts desc keywords ano base).1.map
        (fun r => r.tipo) =
      [base ++ "_prova_azul", base ++ "_gabarito_azul"] := by
  unfold extrairProvaGabaritoLinks
  rw [hc]
  rcases hres : classifyLinks ((harvestLinks c.ctx).map
    (fun a => (a.1.data, a.2.data))) with ⟨p, g⟩
  rw [hres] at hp hg
  simp only at hp hg
  cases p with
  | none => cases hp
  | some hv =>
    cases g with
    | none => cases hg
    | some hw =>
      have hvne : hv ≠ [] := by
        cases hv with
        | nil => simp [truthy] at hp
        | cons c cs => simp
      have hwne : hw ≠ [] := by
        cases hw with
        | nil => simp [truthy] at hg
        | cons c cs => simp
      simp [hres, buildRecords, hvne, hwne]

/-- Witness for C9: a single callout whose sibling list carries the
answer-key anchor before the exam anchor; the produced records still
list the exam record first. -/
theorem c9_exam_record_before_key_witness :
    (extrairProvaGabaritoLinks
        [⟨"1º Dia - Caderno 1 - Azul - Aplicação Regular",
          ⟨[Node.mk "ul" "" ""
              [Node.mk "a" "Gabarito" "g1" [], Node.mk "a" "Prova" "p1" []]],
            []⟩⟩]
        "1º Dia - Caderno 1 - Azul - Aplicação Regular"
        regularD1Keywords "2024" "regular_d1").1.map (fun r => r.tipo) =
      ["regular_d1" ++ "_prova_azul", "regular_d1" ++ "_gabarito_azul"] :=
  c9_exam_record_before_key _ _ _ _ _ _ rfl rfl rfl

/-- Splitting a pointwise-appended `flatMap` into two passes preserves
the elements up to permutation. -/
theorem flatMap_add_perm {α β : Type} (f g : α → List β) (l : List α) :
    (l.flatMap (fun a => f a ++ g a)).Perm (l.flatMap f ++ l.flatMap g) := by
  induction l with
  | nil => simp
  | cons a as ih =>
    simp only [List.flatMap_cons]
    have h1 : (f a ++ g a ++ as.flatMap (fun a => f a ++ g a)).Perm
        (f a ++ g a ++ (as.flatMap f ++ as.flatMap g)) :=
      List.Perm.append_left _ ih
    refine h1.trans ?_
    have h2 : (g a ++ (as.flatMap f ++ as.flatMap g)).Perm
        (as.flatMap f ++ (g a ++ as.flatMap g)) := by
      rw [← List.append_assoc (g a) (as.flatMap f) (as.flatMap g),
        ← List.append_assoc (as.flatMap f) (g a) (as.flatMap g)]
      exact List.Perm.append_right _ List.perm_append_comm
    rw [List.append_assoc (f a) (g a) (as.flatMap f ++ as.flatMap g),
      List.append_assoc (f a) (as.flatMap f) (g a ++ as.flatMap g)]
    exact List.Perm.append_left _ h2

/-- A sibling's contribution to the combined XPath splits into its
`ul`-probe part and its `div`-probe part. -/
theorem siblingAnchors_split (n : Node) :
    siblingAnchors n =
      (if n.tag == "ul" then anchorsUnder n else []) ++
        (if n.tag == "div" then anchorsUnder n else []) := by
  by_cases h1 : n.tag = "ul"
  · simp [siblingAnchors, h1]
  · by_cases h2 : n.tag = "div"
    · simp [siblingAnchors, h1, h2]
    · simp [siblingAnchors, h1, h2]

/-- A tag-filtered probe is the `flatMap` of per-sibling conditional
contributions. -/
theorem probeAnchors_eq_flatMap (siblings : List Node) (tagName : String) :
    probeAnchors siblings tagName =
      siblings.flatMap
        (fun n => if n.tag == tagName then anchorsUnder n else []) := by
  unfold probeAnchors
  induction siblings with
  | nil => rfl
  | cons n ns ih =>
    by_cases h : n.tag = tagName
    · simp [List.filter_cons, h, List.flatMap_cons, ih]
    · simp [List.filter_cons, h, List.flatMap_cons, ih]

/-- One side's sibling walk is a permutation of its `ul` probe followed
by its `div` probe. -/
theorem sideAnchors_perm (siblings : List Node) :
    (siblings.flatMap siblingAnchors).Perm
      (probeAnchors siblings "ul" ++ probeAnchors siblings "div") := by
  rw [probeAnchors_eq_flatMap, probeAnchors_eq_flatMap]
  have he : siblings.flatMap siblingAnchors =
      siblings.flatMap (fun n =>
        (if n.tag == "ul" then anchorsUnder n else []) ++
          (if n.tag == "div" then anchorsUnder n else [])) := by
    induction siblings with
    | nil => rfl
    | cons n ns ih => simp only [List.flatMap_cons, ih, siblingAnchors_split]
  rw [he]
  exact flatMap_add_perm _ _ siblings

/-- Counterexample to C3 as stated: a callout followed by a `div`
containing one anchor and then a `ul` containing another. The spec's
probe-concatenation order puts the `ul` anchor first, but the single
combined XPath query of the source returns the anchors in document
order, `div` anchor first. -/
theorem c3_counterexample :
    harvestLinks
        ⟨[Node.mk "div" "" "" [Node.mk "a" "x" "hx" []],
          Node.mk "ul" "" "" [Node.mk "a" "y" "hy" []]], []⟩ =
      [("x", "hx"), ("y", "hy")] ∧
    harvestLinksSpecOrder
        ⟨[Node.mk "div" "" "" [Node.mk "a" "x" "hx" []],
          Node.mk "ul" "" "" [Node.mk "a" "y" "hy" []]], []⟩ =
      [("y", "hy"), ("x", "hx")] ∧
    harvestLinks
        ⟨[Node.mk "div" "" "" [Node.mk "a" "x" "hx" []],
          Node.mk "ul" "" "" [Node.mk "a" "y" "hy" []]], []⟩ ≠
      harvestLinksSpecOrder
        ⟨[Node.mk "div" "" "" [Node.mk "a" "x" "hx" []],
          Node.mk "ul" "" "" [Node.mk "a" "y" "hy" []]], []⟩ := by
  refine ⟨rfl, rfl, ?_⟩
  intro h
  have h2 : ([("x", "hx"), ("y", "hy")] : List (String × String)) =
      [("y", "hy"), ("x", "hx")] := h
  exact absurd h2 (by decide)

/-- Claim C3, amended: the harvester evaluates exactly the four probes
(list-like and block-like following siblings of the callout and of its
parent) through one combined XPath query, and returns their union in
document order — each side's anchors in sibling order, the callout's
siblings before the parent's siblings — rather than in the fixed
probe-concatenation order; the result is a permutation of the four
probes' concatenation, and it is empty (not an error) exactly when no
probe yields anchors. -/
theorem c3_harvester_amended (ctx : CalloutCtx) :
    (harvestLinks ctx).Perm (harvestLinksSpecOrder ctx) ∧
    (harvestLinks ctx = [] ↔ harvestLinksSpecOrder ctx = []) := by
  have hperm : (harvestLinks ctx).Perm (harvestLinksSpecOrder ctx) := by
    have h1 : (harvestLinks ctx).Perm
        ((probeAnchors ctx.followingSiblings "ul" ++
            probeAnchors ctx.followingSiblings "div") ++
          (probeAnchors ctx.parentFollowingSiblings "ul" ++
            probeAnchors ctx.parentFollowingSiblings "div")) :=
      List.Perm.append (sideAnchors_perm _) (sideAnchors_perm _)
    have h2 : harvestLinksSpecOrder ctx =
        (probeAnchors ctx.followingSiblings "ul" ++
            probeAnchors ctx.followingSiblings "div") ++
          (probeAnchors ctx.parentFollowingSiblings "ul" ++
            probeAnchors ctx.parentFollowingSiblings "div") := by
      unfold harvestLinksSpecOrder
      simp [List.append_assoc]
    rw [h2]
    exact h1
  refine ⟨hperm, ?_, ?_⟩
  · intro h
    have := hperm.length_eq
    rw [h] at this
    exact List.length_eq_zero.mp this.symm
  · intro h
    have := hperm.length_eq
    rw [h] at this
    exact List.length_eq_zero.mp this

/-- Claim C6: a category whose callout or links are missing never
raises out of the extraction pass (each per-category failure is caught
and recorded inside the pass, which then continues); in particular, on
a year scope with zero callout elements and no essay-theme anchor the
extraction returns no record and exactly one diagnostic per category,
in pass order. -/
theorem c6_extraction_robustness (scope : YearScope) (ano : String)
    (hc : scope.callouts = [])
    (ht : scope.anchors.find? temaAnchorPred = none) :
    (extrairLinksProvasEGabaritos scope ano).1 = [] ∧
    (extrairLinksProvasEGabaritos scope ano).2 =
      [Diag.calloutNotFound "1º Dia - Caderno 1 - Azul - Aplicação Regular",
       Diag.calloutNotFound "2º Dia - Caderno 7 - Azul - Aplicação Regular",
       Diag.calloutNotFound "1º Dia - Caderno Azul - Aplicação Digital",
       Diag.calloutNotFound "2º Dia - Caderno Azul - Aplicação Digital",
       Diag.temaNotFound ano,
       Diag.calloutNotFound "1º Dia - Caderno 1 - Azul - Reaplicação/PPL",
       Diag.calloutNotFound "2º Dia - Caderno 7 - Azul - Reaplicação/PPL"] := by
  have h0 : ∀ desc kws tipoBase,
      extrairProvaGabaritoLinks [] desc kws ano tipoBase =
        ([], [Diag.calloutNotFound desc]) := fun _ _ _ => rfl
  have h5 : temaRedacaoPart scope ano = ([], [Diag.temaNotFound ano]) := by
    unfold temaRedacaoPart
    rw [ht]
  unfold extrairLinksProvasEGabaritos
  rw [hc]
  simp [h0, h5]

/-- Witness for C6: an entirely empty year scope yields no record and
the seven per-category diagnostics. -/
theorem c6_extraction_robustness_witness :
    (extrairLinksProvasEGabaritos ⟨[], []⟩ "2024").1 = [] ∧
    (extrairLinksProvasEGabaritos ⟨[], []⟩ "2024").2 =
      [Diag.calloutNotFound "1º Dia - Caderno 1 - Azul - Aplicação Regular",
       Diag.calloutNotFound "2º Dia - Caderno 7 - Azul - Aplicação Regular",
       Diag.calloutNotFound "1º Dia - Caderno Azul - Aplicação Digital",
       Diag.calloutNotFound "2º Dia - Caderno Azul - Aplicação Digital",
       Diag.temaNotFound "2024",
       Diag.calloutNotFound "1º Dia - Caderno 1 - Azul - Reaplicação/PPL",
       Diag.calloutNotFound "2º Dia - Caderno 7 - Azul - Reaplicação/PPL"] :=
  c6_extraction_robustness ⟨[], []⟩ "2024" rfl rfl

/-- Every record a callout-protocol category produces carries that
category's exam or answer-key `tipo`. -/
theorem buildRecords_tipos (p g : Option (List Char)) (ano base desc : String) :
    ∀ r ∈ (buildRecords p g ano base desc).1,
      r.tipo = base ++ "_prova_azul" ∨ r.tipo = base ++ "_gabarito_azul" := by
  intro r hr
  rcases List.mem_append.mp hr with h | h
  · left
    cases p with
    | none => cases h
    | some hv =>
      by_cases hv0 : hv.isEmpty
      · simp [hv0] at h
      · simp only [hv0, if_neg] at h
        simp at h
        rw [h]
  · right
    cases g with
    | none => cases h
    | some hw =>
      by_cases hw0 : hw.isEmpty
      · simp [hw0] at h
      · simp only [hw0, if_neg] at h
        simp at h
        rw [h]

/-- Lifts `buildRecords_tipos` through the per-category extraction. -/
theorem extrairPG_tipos (callouts : List CalloutElem)
    (desc : String) (kws : List (List Char)) (ano base : String) :
    ∀ r ∈ (extrairProvaGabaritoLinks callouts desc kws ano base).1,
      r.tipo = base ++ "_prova_azul" ∨ r.tipo = base ++ "_gabarito_azul" := by
  intro r hr
  unfold extrairProvaGabaritoLinks at hr
  cases hfc : findCallout callouts kws with
  | none =>
    rw [hfc] at hr
    cases hr
  | some c =>
    rcases hres : classifyLinks ((harvestLinks c.ctx).map
      (fun a => (a.1.data, a.2.data))) with ⟨p, g⟩
    simp only [hfc, hres] at hr
    exact buildRecords_tipos p g ano base desc r hr

/-- The catalog index of every record of one callout-protocol category
is that category's index. -/
theorem extrairPG_catIndex (callouts : List CalloutElem)
    (desc : String) (kws : List (List Char)) (ano base : String) (i : Nat)
    (hp : catIndex (base ++ "_prova_azul") = i)
    (hg : catIndex (base ++ "_gabarito_azul") = i) :
    ∀ r ∈ (extrairProvaGabaritoLinks callouts desc kws ano base).1,
      catIndex r.tipo = i := by
  intro r hr
  rcases extrairPG_tipos callouts desc kws ano base r hr with h | h
  · rw [h, hp]
  · rw [h, hg]

/-- The essay-theme block only ever produces the essay-theme record. -/
theorem temaPart_catIndex (scope : YearScope) (ano : String) :
    ∀ r ∈ (temaRedacaoPart scope ano).1, catIndex r.tipo = 4 := by
  intro r hr
  unfold temaRedacaoPart at hr
  cases hf : scope.anchors.find? temaAnchorPred with
  | none =>
    rw [hf] at hr
    cases hr
  | some a =>
    rw [hf] at hr
    simp at hr
    rw [hr]
    show catIndex "reaplicacao_redacao" = 4
    decide

/-- A list whose records all sit at one catalog index is internally
sorted by catalog index. -/
theorem pairwise_of_const_catIndex (i : Nat) :
    ∀ l : List LinkRecord, (∀ r ∈ l, catIndex r.tipo = i) →
      List.Pairwise (fun a b => catIndex a.tipo ≤ catIndex b.tipo) l := by
  intro l
  induction l with
  | nil =>
    intro _
    exact List.Pairwise.nil
  | cons r rest ih =>
    intro h
    rw [List.pairwise_cons]
    constructor
    · intro x hx
      rw [h r (List.mem_cons_self _ _), h x (List.mem_cons_of_mem _ hx)]
    · exact ih (fun x hx => h x (List.mem_cons_of_mem _ hx))

/-- Prepending a block of records at one catalog index to a sorted
suffix whose indices are at least that index keeps the whole list
sorted and bounded below. -/
theorem catBlock_pairwise (i : Nat) (l1 l2 : List LinkRecord)
    (h1 : ∀ r ∈ l1, catIndex r.tipo = i)
    (h2 : List.Pairwise (fun a b => catIndex a.tipo ≤ catIndex b.tipo) l2)
    (h3 : ∀ r ∈ l2, i ≤ catIndex r.tipo) :
    List.Pairwise (fun a b => catIndex a.tipo ≤ catIndex b.tipo) (l1 ++ l2) ∧
    ∀ r ∈ l1 ++ l2, i ≤ catIndex r.tipo := by
  induction l1 with
  | nil => exact ⟨h2, by simpa using h3⟩
  | cons r rest ih =>
    obtain ⟨ihp, ihb⟩ := ih (fun x hx => h1 x (List.mem_cons_of_mem _ hx))
    constructor
    · rw [List.cons_append, List.pairwise_cons]
      refine ⟨?_, ihp⟩
      intro x hx
      rw [h1 r (List.mem_cons_self _ _)]
      exact ihb x hx
    · intro x hx
      rcases List.mem_cons.mp hx with hx | hx
      · subst hx
        rw [h1 x (List.mem_cons_self _ _)]
      · exact ihb x hx

/-- Records outside the essay-theme catalog slot never pass the
essay-theme filter. -/
theorem filter_tema_nil (i : Nat) (hi : i ≠ 4) (l : List LinkRecord)
    (h : ∀ r ∈ l, catIndex r.tipo = i) :
    l.filter (fun r => r.tipo == "reaplicacao_redacao") = [] := by
  rw [List.filter_eq_nil_iff]
  intro r hr
  intro hcon
  have h1 : r.tipo = "reaplicacao_redacao" := by
    have := of_decide_eq_true hcon
    exact this
  have h2 := h r hr
  rw [h1] at h2
  have : catIndex "reaplicacao_redacao" = 4 := by decide
  rw [this] at h2
  exact hi h2.symm

/-- Counterexample to C4 as stated: on a year scope where all seven
categories yield their documents, the essay-theme record lands between
the digital and re-application blocks (position 9 of 13), not last —
the source's essay-theme search runs before the re-application
categories, so the claimed catalog order (essay theme after
re-application day 2) does not match the accumulated record order. -/
theorem c4_counterexample :
    ((extrairLinksProvasEGabaritos sampleFullScope "2024").1.map
        (fun r => r.tipo)) =
      ["regular_d1_prova_azul", "regular_d1_gabarito_azul",
       "regular_d2_prova_azul", "regular_d2_gabarito_azul",
       "digital_d1_prova_azul", "digital_d1_gabarito_azul",
       "digital_d2_prova_azul", "digital_d2_gabarito_azul",
       "reaplicacao_redacao",
       "reaplicacao_d1_prova_azul", "reaplicacao_d1_gabarito_azul",
       "reaplicacao_d2_prova_azul", "reaplicacao_d2_gabarito_azul"] ∧
    ((extrairLinksProvasEGabaritos sampleFullScope "2024").1.map
        (fun r => r.tipo)).getLast? ≠ some "reaplicacao_redacao" := by
  refine ⟨by decide, by decide⟩

/-- Claim C4, amended: for every year scope, the extraction pass
processes exactly the seven catalog categories in the fixed order
regular-d1, regular-d2, digital-d1, digital-d2, essay-theme,
re-application-d1, re-application-d2 (the essay theme sits between the
digital and re-application pairs, not last); accumulated records appear
in that category order, every record belongs to one of the seven
catalog slots, and only the essay-theme category bypasses the
callout/keyword protocol — its records come from a direct search of the
whole scope for the first anchor whose raw text contains the fixed
essay-theme label, independent of the callout machinery. -/
theorem c4_extraction_order_amended (scope : YearScope) (ano : String) :
    List.Pairwise (fun a b => catIndex a.tipo ≤ catIndex b.tipo)
      (extrairLinksProvasEGabaritos scope ano).1 ∧
    (∀ r ∈ (extrairLinksProvasEGabaritos scope ano).1,
      catIndex r.tipo < 7) ∧
    ((extrairLinksProvasEGabaritos scope ano).1.filter
        (fun r => r.tipo == "reaplicacao_redacao") =
      match scope.anchors.find? temaAnchorPred with
      | some a => [⟨ano, "reaplicacao_redacao", a.2⟩]
      | none => []) := by
  have hI1 := extrairPG_catIndex scope.callouts
    "1º Dia - Caderno 1 - Azul - Aplicação Regular" regularD1Keywords
    ano "regular_d1" 0 (by decide) (by decide)
  have hI2 := extrairPG_catIndex scope.callouts
    "2º Dia - Caderno 7 - Azul - Aplicação Regular" regularD2Keywords
    ano "regular_d2" 1 (by decide) (by decide)
  have hI3 := extrairPG_catIndex scope.callouts
    "1º Dia - Caderno Azul - Aplicação Digital" digitalD1Keywords
    ano "digital_d1" 2 (by decide) (by decide)
  have hI4 := extrairPG_catIndex scope.callouts
    "2º Dia - Caderno Azul - Aplicação Digital" digitalD2Keywords
    ano "digital_d2" 3 (by decide) (by decide)
  have hI5 := temaPart_catIndex scope ano
  have hI6 := extrairPG_catIndex scope.callouts
    "1º Dia - Caderno 1 - Azul - Reaplicação/PPL" reapD1Keywords
    ano "reaplicacao_d1" 5 (by decide) (by decide)
  have hI7 := extrairPG_catIndex scope.callouts
    "2º Dia - Caderno 7 - Azul - Reaplicação/PPL" reapD2Keywords
    ano "reaplicacao_d2" 6 (by decide) (by decide)
  refine ⟨?_, ?_, ?_⟩
  · have s7 := pairwise_of_const_catIndex 6 _ hI7
    have s6 := catBlock_pairwise 5 _ _ hI6 s7
      (fun r hr => by rw [hI7 r hr]; omega)
    have s5 := catBlock_pairwise 4 _ _ hI5 s6.1
      (fun r hr => Nat.le_trans (by omega) (s6.2 r hr))
    have s4 := catBlock_pairwise 3 _ _ hI4 s5.1
      (fun r hr => Nat.le_trans (by omega) (s5.2 r hr))
    have s3 := catBlock_pairwise 2 _ _ hI3 s4.1
      (fun r hr => Nat.le_trans (by omega) (s4.2 r hr))
    have s2 := catBlock_pairwise 1 _ _ hI2 s3.1
      (fun r hr => Nat.le_trans (by omega) (s3.2 r hr))
    have s1 := catBlock_pairwise 0 _ _ hI1 s2.1
      (fun r hr => Nat.le_trans (by omega) (s2.2 r hr))
    simp only [extrairLinksProvasEGabaritos, List.append_assoc]
    exact s1.1
  · intro r hr
    simp only [extrairLinksProvasEGabaritos, List.append_assoc,
      List.mem_append] at hr
    rcases hr with h | h | h | h | h | h | h
    · rw [hI1 r h]
      omega
    · rw [hI2 r h]
      omega
    · rw [hI3 r h]
      omega
    · rw [hI4 r h]
      omega
    · rw [hI5 r h]
      omega
    · rw [hI6 r h]
      omega
    · rw [hI7 r h]
      omega
  · have f1 := filter_tema_nil 0 (by omega) _ hI1
    have f2 := filter_tema_nil 1 (by omega) _ hI2
    have f3 := filter_tema_nil 2 (by omega) _ hI3
    have f4 := filter_tema_nil 3 (by omega) _ hI4
    have f6 := filter_tema_nil 5 (by omega) _ hI6
    have f7 := filter_tema_nil 6 (by omega) _ hI7
    simp only [extrairLinksProvasEGabaritos, List.append_assoc,
      List.filter_append, f1, f2, f3, f4, f6, f7, List.nil_append,
      List.append_nil]
    unfold temaRedacaoPart
    cases hf : scope.anchors.find? temaAnchorPred with
    | none => rfl
    | some a => simp

/-- Characters with equal code points are equal. -/
theorem char_eq_of_toNat_eq (c d : Char) (h : c.toNat = d.toNat) : c = d :=
  Char.ext (UInt32.ext h)

/-- Code-point ranges of canonical characters. -/
theorem canonChar_toNat (c : Char) (h : isCanonChar c = true) :
    c.toNat = 32 ∨ (97 ≤ c.toNat ∧ c.toNat ≤ 122) ∨
      (48 ≤ c.toNat ∧ c.toNat ≤ 57) := by
  simp only [isCanonChar, isLowerAlnum, Bool.or_eq_true, Bool.and_eq_true,
    decide_eq_true_eq, beq_iff_eq] at h
  rcases h with (h | h) | h
  · exact Or.inr (Or.inl h)
  · exact Or.inr (Or.inr h)
  · rw [h]
    exact Or.inl rfl

/-- Alphanumerics are not whitespace. -/
theorem alnum_not_ws (c : Char) (h : isLowerAlnum c = true) :
    isPyWs c = false := by
  simp only [isLowerAlnum, Bool.or_eq_true, Bool.and_eq_true,
    decide_eq_true_eq] at h
  simp only [isPyWs, Bool.or_eq_false_iff, beq_eq_false_iff_ne, ne_eq]
  omega

/-- A canonical whitespace character is the plain space. -/
theorem canon_ws_eq_space (c : Char) (h1 : isCanonChar c = true)
    (h2 : isPyWs c = true) : c = ' ' := by
  apply char_eq_of_toNat_eq
  show c.toNat = 32
  have h3 := canonChar_toNat c h1
  simp only [isPyWs, Bool.or_eq_true, beq_iff_eq] at h2
  omega

/-- A canonical non-alphanumeric character is the plain space. -/
theorem canon_not_alnum_space (c : Char) (h1 : isCanonChar c = true)
    (h2 : isLowerAlnum c = false) : c = ' ' := by
  rw [isCanonChar, h2, Bool.false_or, beq_iff_eq] at h1
  exact h1

/-- A canonical non-whitespace character is alphanumeric. -/
theorem canon_not_ws_alnum (c : Char) (h1 : isCanonChar c = true)
    (h2 : isPyWs c = false) : isLowerAlnum c = true := by
  cases ha : isLowerAlnum c with
  | true => rfl
  | false =>
    have h3 := canon_not_alnum_space c h1 ha
    rw [h3] at h2
    exact absurd h2 (by decide)

/-- Every character `squashAux` emits is canonical. -/
theorem squashAux_canon :
    ∀ (l : List Char) (flag : Bool), ∀ c ∈ squashAux flag l,
      isCanonChar c = true := by
  intro l
  induction l with
  | nil =>
    intro flag c hc
    cases hc
  | cons d ds ih =>
    intro flag c hc
    rw [squashAux] at hc
    split at hc
    · rename_i hd
      rcases List.mem_cons.mp hc with rfl | hc
      · rw [isCanonChar, hd, Bool.true_or]
      · exact ih false c hc
    · split at hc
      · exact ih true c hc
      · rcases List.mem_cons.mp hc with rfl | hc
        · decide
        · exact ih true c hc

/-- After the space of a run has been emitted, the next emitted
character is alphanumeric — the output of the in-run scan never starts
with whitespace. -/
theorem squashAux_true_head :
    ∀ ds : List Char, headIsWs (squashAux true ds) = false := by
  intro ds
  induction ds with
  | nil => rfl
  | cons d ds ih =>
    rw [squashAux]
    split
    · rename_i hd
      rw [headIsWs]
      exact alnum_not_ws d hd
    · simp only [if_pos]
      exact ih

/-- The scan `squashAux` never emits two adjacent whitespace characters. -/
theorem squashAux_noAdj :
    ∀ (l : List Char) (flag : Bool), noAdjWs (squashAux flag l) = true := by
  intro l
  induction l with
  | nil =>
    intro flag
    rfl
  | cons d ds ih =>
    intro flag
    rw [squashAux]
    split
    · rename_i hd
      rw [noAdjWs, ih false, Bool.and_true, alnum_not_ws d hd,
        Bool.false_and, Bool.not_false]
    · split
      · exact ih true
      · rw [noAdjWs, ih true, Bool.and_true, squashAux_true_head ds]
        rfl

/-- The scan `collapseAux` preserves canonical characters. -/
theorem collapseAux_canon :
    ∀ (l : List Char) (flag : Bool),
      (∀ c ∈ l, isCanonChar c = true) →
      ∀ c ∈ collapseAux flag l, isCanonChar c = true := by
  intro l
  induction l with
  | nil =>
    intro flag _ c hc
    cases hc
  | cons d ds ih =>
    intro flag hl c hc
    have hd := hl d (List.mem_cons_self _ _)
    have hds : ∀ c ∈ ds, isCanonChar c = true :=
      fun c hc => hl c (List.mem_cons_of_mem _ hc)
    rw [collapseAux] at hc
    split at hc
    · split at hc
      · exact ih true hds c hc
      · rcases List.mem_cons.mp hc with rfl | hc
        · decide
        · exact ih true hds c hc
    · rcases List.mem_cons.mp hc with rfl | hc
      · exact hd
      · exact ih false hds c hc

/-- The output of the in-run whitespace scan never starts with
whitespace. -/
theorem collapseAux_true_head :
    ∀ ds : List Char, headIsWs (collapseAux true ds) = false := by
  intro ds
  induction ds with
  | nil => rfl
  | cons d ds ih =>
    rw [collapseAux]
    split
    · simp only [if_pos]
      exact ih
    · rename_i hd
      rw [headIsWs]
      simp only [Bool.not_eq_true] at hd
      exact hd

/-- The scan `collapseAux` never emits two adjacent whitespace characters. -/
theorem collapseAux_noAdj :
    ∀ (l : List Char) (flag : Bool), noAdjWs (collapseAux flag l) = true := by
  intro l
  induction l with
  | nil =>
    intro flag
    rfl
  | cons d ds ih =>
    intro flag
    rw [collapseAux]
    split
    · split
      · exact ih true
      · rw [noAdjWs, ih true, Bool.and_true, collapseAux_true_head ds]
        rfl
    · rename_i hd
      simp only [Bool.not_eq_true] at hd
      rw [noAdjWs, ih false, Bool.and_true, hd, Bool.false_and,
        Bool.not_false]

/-- Dropping leading whitespace leaves a string that does not start
with whitespace. -/
theorem dropWhile_ws_head (l : List Char) :
    headIsWs (l.dropWhile isPyWs) = false := by
  induction l with
  | nil => rfl
  | cons c cs ih =>
    cases h : isPyWs c with
    | true => simpa [List.dropWhile_cons, h] using ih
    | false => simp [List.dropWhile_cons, h, headIsWs]

/-- Dropping leading whitespace keeps canonical characters. -/
theorem dropWhile_ws_canon (l : List Char)
    (h : ∀ c ∈ l, isCanonChar c = true) :
    ∀ c ∈ l.dropWhile isPyWs, isCanonChar c = true := by
  induction l with
  | nil =>
    intro c hc
    cases hc
  | cons d ds ih =>
    intro c hc
    cases hw : isPyWs d with
    | true =>
      rw [List.dropWhile_cons, hw] at hc
      simp only [if_pos] at hc
      exact ih (fun c hc => h c (List.mem_cons_of_mem _ hc)) c hc
    | false =>
      rw [List.dropWhile_cons, hw] at hc
      simp only [Bool.false_eq_true, if_false] at hc
      exact h c hc

/-- Dropping leading whitespace preserves the no-adjacent-whitespace
property. -/
theorem dropWhile_ws_noAdj (l : List Char) (h : noAdjWs l = true) :
    noAdjWs (l.dropWhile isPyWs) = true := by
  induction l with
  | nil => exact h
  | cons d ds ih =>
    rw [noAdjWs, Bool.and_eq_true] at h
    cases hw : isPyWs d with
    | true =>
      rw [List.dropWhile_cons, hw]
      simp only [if_pos]
      exact ih h.2
    | false =>
      rw [List.dropWhile_cons, hw]
      simp only [Bool.false_eq_true, if_false]
      rw [noAdjWs, Bool.and_eq_true]
      exact h

/-- The scan `stripTrail` keeps canonical characters. -/
theorem stripTrail_canon (l : List Char)
    (h : ∀ c ∈ l, isCanonChar c = true) :
    ∀ c ∈ stripTrail l, isCanonChar c = true := by
  induction l with
  | nil =>
    intro c hc
    cases hc
  | cons d ds ih =>
    intro c hc
    have hds : ∀ c ∈ ds, isCanonChar c = true :=
      fun c hc => h c (List.mem_cons_of_mem _ hc)
    rw [stripTrail] at hc
    split at hc
    · split at hc
      · cases hc
      · rcases List.mem_cons.mp hc with rfl | hc2
        · exact h c (List.mem_cons_self _ _)
        · cases hc2
    · rename_i e es heq
      rcases List.mem_cons.mp hc with rfl | hc2
      · exact h c (List.mem_cons_self _ _)
      · rw [← heq] at hc2
        exact ih hds c hc2

/-- When `stripTrail` returns a non-empty list, the head of the input
survives as the head of the output. -/
theorem stripTrail_head_eq (l : List Char) (d : Char) (ds : List Char)
    (h : stripTrail l = d :: ds) : ∃ tail, l = d :: tail := by
  cases l with
  | nil => exact List.noConfusion h
  | cons c cs =>
    rw [stripTrail] at h
    split at h
    · split at h
      · exact List.noConfusion h
      · injection h with h1 h2
        exact ⟨cs, by rw [h1]⟩
    · rename_i e es heq
      injection h with h1 h2
      exact ⟨cs, by rw [h1]⟩

/-- The scan `stripTrail` preserves the absence of a leading whitespace. -/
theorem stripTrail_head (l : List Char) (h : headIsWs l = false) :
    headIsWs (stripTrail l) = false := by
  cases hst : stripTrail l with
  | nil => rfl
  | cons d ds =>
    obtain ⟨tail, htail⟩ := stripTrail_head_eq l d ds hst
    rw [htail, headIsWs] at h
    rw [headIsWs]
    exact h

/-- The scan `stripTrail` preserves the no-adjacent-whitespace property. -/
theorem stripTrail_noAdj (l : List Char) (h : noAdjWs l = true) :
    noAdjWs (stripTrail l) = true := by
  induction l with
  | nil => exact h
  | cons d ds ih =>
    rw [noAdjWs, Bool.and_eq_true] at h
    rw [stripTrail]
    split
    · split
      · rfl
      · simp [noAdjWs, headIsWs]
    · rename_i e es heq
      rw [noAdjWs, Bool.and_eq_true]
      constructor
      · obtain ⟨tail, htail⟩ := stripTrail_head_eq ds e es heq
        have h1 := h.1
        rw [htail, headIsWs] at h1
        rw [headIsWs]
        exact h1
      · rw [← heq]
        exact ih h.2

/-- The scan `stripTrail` leaves no trailing whitespace. -/
theorem stripTrail_trail (l : List Char) :
    trailIsWs (stripTrail l) = false := by
  induction l with
  | nil => rfl
  | cons d ds ih =>
    rw [stripTrail]
    split
    · split
      · rfl
      · rename_i hd
        rw [trailIsWs]
        simp only [Bool.not_eq_true] at hd
        exact hd
    · rename_i e es heq
      rw [trailIsWs, ← heq]
      exact ih

/-- A canonical character is not the ampersand. -/
theorem canon_ne_amp (c : Char) (h : isCanonChar c = true) : c ≠ '&' := by
  intro hc
  rw [hc] at h
  exact absurd h (by decide)

/-- Unfolding of the entity replacement at a head that cannot start the
entity. -/
theorem replaceNbsp_cons_of_ne (c : Char) (cs : List Char) (h : c ≠ '&') :
    replaceNbsp (c :: cs) = c :: replaceNbsp cs := by
  rw [replaceNbsp.eq_def]
  split
  · rename_i heq
    injection heq with h1 _
    exact absurd h1 h
  · rename_i heq
    injection heq with h1 h2
    rw [h1, h2]
  · rename_i heq
    exact List.noConfusion heq

/-- Step 1 is the identity on canonical text: no `&` can occur. -/
theorem replaceNbsp_id (l : List Char)
    (h : ∀ c ∈ l, isCanonChar c = true) : replaceNbsp l = l := by
  induction l with
  | nil => rfl
  | cons c cs ih =>
    rw [replaceNbsp_cons_of_ne c cs
      (canon_ne_amp c (h c (List.mem_cons_self _ _)))]
    rw [ih (fun c hc => h c (List.mem_cons_of_mem _ hc))]

/-- Step 1b is the identity on canonical text: the en-dash cannot
occur. -/
theorem endash_id (c : Char) (h : isCanonChar c = true) :
    endashToHyphen c = c := by
  have h3 := canonChar_toNat c h
  rw [endashToHyphen]
  have : (c.toNat == 8211) = false := by
    simp only [beq_eq_false_iff_ne, ne_eq]
    omega
  rw [this]
  simp

/-- Step 2 is the identity on canonical text: ordinal indicators cannot
occur. -/
theorem ordinal_id (c : Char) (h : isCanonChar c = true) :
    isOrdinalIndicator c = false := by
  have h3 := canonChar_toNat c h
  rw [isOrdinalIndicator]
  simp only [Bool.or_eq_false_iff, beq_eq_false_iff_ne, ne_eq]
  omega

/-- Step 3 is the identity on canonical text: the character is ASCII. -/
theorem fold_id (c : Char) (h : isCanonChar c = true) :
    nfdAsciiFold c = [c] := by
  have h3 := canonChar_toNat c h
  rw [nfdAsciiFold, if_pos (by omega)]

/-- Step 4 is the identity on canonical text: no uppercase letter can
occur. -/
theorem lower_id (c : Char) (h : isCanonChar c = true) :
    asciiLower c = c := by
  have h3 := canonChar_toNat c h
  rw [asciiLower]
  have hc : ¬ ((65 ≤ c.toNat && c.toNat ≤ 90) = true) := by
    simp only [Bool.and_eq_true, decide_eq_true_eq]
    omega
  rw [if_neg hc]

/-- Pointwise-identity maps are the identity. -/
theorem map_id_of_mem {f : Char → Char} :
    ∀ l : List Char, (∀ c ∈ l, f c = c) → l.map f = l := by
  intro l
  induction l with
  | nil =>
    intro _
    rfl
  | cons c cs ih =>
    intro h
    rw [List.map_cons, h c (List.mem_cons_self _ _),
      ih (fun c hc => h c (List.mem_cons_of_mem _ hc))]

/-- Pointwise-singleton `flatMap`s are the identity. -/
theorem flatMap_id_of_mem {f : Char → List Char} :
    ∀ l : List Char, (∀ c ∈ l, f c = [c]) → l.flatMap f = l := by
  intro l
  induction l with
  | nil =>
    intro _
    rfl
  | cons c cs ih =>
    intro h
    rw [List.flatMap_cons, h c (List.mem_cons_self _ _),
      ih (fun c hc => h c (List.mem_cons_of_mem _ hc))]
    rfl

/-- Step 5 is the identity on canonical text with no doubled space,
whichever flag the scan starts in (for the in-run flag, provided the
text does not start with whitespace). -/
theorem squashAux_id (l : List Char)
    (hcanon : ∀ c ∈ l, isCanonChar c = true) (hadj : noAdjWs l = true) :
    squashAux false l = l ∧
      (headIsWs l = false → squashAux true l = l) := by
  induction l with
  | nil => exact ⟨rfl, fun _ => rfl⟩
  | cons c cs ih =>
    have hc := hcanon c (List.mem_cons_self _ _)
    have hcs : ∀ c ∈ cs, isCanonChar c = true :=
      fun c hc => hcanon c (List.mem_cons_of_mem _ hc)
    rw [noAdjWs, Bool.and_eq_true] at hadj
    obtain ⟨ih0, ih1⟩ := ih hcs hadj.2
    constructor
    · cases ha : isLowerAlnum c with
      | true =>
        rw [squashAux, if_pos ha, ih0]
      | false =>
        have hsp := canon_not_alnum_space c hc ha
        subst hsp
        have hhead : headIsWs cs = false := by
          cases hh : headIsWs cs with
          | false => rfl
          | true =>
            have h1 := hadj.1
            rw [hh] at h1
            exact absurd h1 (by decide)
        show ' ' :: squashAux true cs = ' ' :: cs
        rw [ih1 hhead]
    · intro hhw
      rw [headIsWs] at hhw
      have ha := canon_not_ws_alnum c hc hhw
      rw [squashAux, if_pos ha, ih0]

/-- Step 6a is the identity on canonical text with no doubled space. -/
theorem collapseAux_id (l : List Char)
    (hcanon : ∀ c ∈ l, isCanonChar c = true) (hadj : noAdjWs l = true) :
    collapseAux false l = l ∧
      (headIsWs l = false → collapseAux true l = l) := by
  induction l with
  | nil => exact ⟨rfl, fun _ => rfl⟩
  | cons c cs ih =>
    have hc := hcanon c (List.mem_cons_self _ _)
    have hcs : ∀ c ∈ cs, isCanonChar c = true :=
      fun c hc => hcanon c (List.mem_cons_of_mem _ hc)
    rw [noAdjWs, Bool.and_eq_true] at hadj
    obtain ⟨ih0, ih1⟩ := ih hcs hadj.2
    constructor
    · cases hw : isPyWs c with
      | false =>
        rw [collapseAux, if_neg (by rw [hw]; exact Bool.false_ne_true), ih0]
      | true =>
        have hsp := canon_ws_eq_space c hc hw
        subst hsp
        have hhead : headIsWs cs = false := by
          cases hh : headIsWs cs with
          | false => rfl
          | true =>
            have h1 := hadj.1
            rw [hh] at h1
            exact absurd h1 (by decide)
        show ' ' :: collapseAux true cs = ' ' :: cs
        rw [ih1 hhead]
    · intro hhw
      rw [headIsWs] at hhw
      rw [collapseAux, if_neg (by rw [hhw]; exact Bool.false_ne_true), ih0]

/-- Dropping leading whitespace is the identity when there is none. -/
theorem dropWhile_ws_id (l : List Char) (h : headIsWs l = false) :
    l.dropWhile isPyWs = l := by
  cases l with
  | nil => rfl
  | cons c cs =>
    rw [headIsWs] at h
    rw [List.dropWhile_cons, h]
    simp

/-- Stripping trailing whitespace is the identity when there is none. -/
theorem stripTrail_id (l : List Char) (h : trailIsWs l = false) :
    stripTrail l = l := by
  induction l with
  | nil => rfl
  | cons c cs ih =>
    cases cs with
    | nil =>
      rw [trailIsWs] at h
      rw [stripTrail]
      show (if isPyWs c = true then [] else [c]) = [c]
      rw [h]
      simp
    | cons d ds =>
      rw [trailIsWs] at h
      have hst := ih h
      rw [stripTrail, hst]

/-- Every normalized string is canonical: only lowercase alphanumerics
and single separating spaces, no leading or trailing space. -/
theorem normList_canonical (t : List Char) :
    (∀ c ∈ normList t, isCanonChar c = true) ∧
      noAdjWs (normList t) = true ∧
      headIsWs (normList t) = false ∧
      trailIsWs (normList t) = false := by
  unfold normList stripWs collapseWs squashNonAlnum
  refine ⟨?_, ?_, ?_, ?_⟩
  · exact fun c hc => stripTrail_canon _ (dropWhile_ws_canon _
      (collapseAux_canon _ false (squashAux_canon _ false))) c hc
  · exact stripTrail_noAdj _ (dropWhile_ws_noAdj _ (collapseAux_noAdj _ false))
  · exact stripTrail_head _ (dropWhile_ws_head _)
  · exact stripTrail_trail _

/-- Every step of the normalizer is the identity on canonical text. -/
theorem normList_id_canonical (l : List Char)
    (h1 : ∀ c ∈ l, isCanonChar c = true) (h2 : noAdjWs l = true)
    (h3 : headIsWs l = false) (h4 : trailIsWs l = false) :
    normList l = l := by
  unfold normList stripWs collapseWs squashNonAlnum
  rw [replaceNbsp_id l h1,
    map_id_of_mem l (fun c hc => endash_id c (h1 c hc)),
    List.filter_eq_self.mpr
      (fun c hc => by rw [ordinal_id c (h1 c hc)]; rfl),
    flatMap_id_of_mem l (fun c hc => fold_id c (h1 c hc)),
    map_id_of_mem l (fun c hc => lower_id c (h1 c hc)),
    (squashAux_id l h1 h2).1,
    (collapseAux_id l h1 h2).1,
    dropWhile_ws_id l h3,
    stripTrail_id l h4]

/-- Claim C7: normalization is idempotent — for every string `s`,
normalizing an already-normalized string yields the same string, so
`normalize(normalize(s)) = normalize(s)`. -/
theorem c7_normalize_idempotent (s : List Char) :
    normalizar_texto_para_comparacao
        (some (normalizar_texto_para_comparacao (some s))) =
      normalizar_texto_para_comparacao (some s) := by
  show normList (normList s) = normList s
  obtain ⟨h1, h2, h3, h4⟩ := normList_canonical s
  exact normList_id_canonical _ h1 h2 h3 h4

/-- Witness for C3 (amended): the permutation and emptiness properties
at the concrete div-before-ul context. -/
theorem c3_harvester_amended_witness :
    (harvestLinks
        ⟨[Node.mk "div" "" "" [Node.mk "a" "x" "hx" []],
          Node.mk "ul" "" "" [Node.mk "a" "y" "hy" []]], []⟩).Perm
      (harvestLinksSpecOrder
        ⟨[Node.mk "div" "" "" [Node.mk "a" "x" "hx" []],
          Node.mk "ul" "" "" [Node.mk "a" "y" "hy" []]], []⟩) ∧
    (harvestLinks
        ⟨[Node.mk "div" "" "" [Node.mk "a" "x" "hx" []],
          Node.mk "ul" "" "" [Node.mk "a" "y" "hy" []]], []⟩ = [] ↔
      harvestLinksSpecOrder
        ⟨[Node.mk "div" "" "" [Node.mk "a" "x" "hx" []],
          Node.mk "ul" "" "" [Node.mk "a" "y" "hy" []]], []⟩ = []) :=
  c3_harvester_amended
    ⟨[Node.mk "div" "" "" [Node.mk "a" "x" "hx" []],
      Node.mk "ul" "" "" [Node.mk "a" "y" "hy" []]], []⟩

/-- Witness for C4 (amended): the ordering, catalog-membership and
essay-theme properties at the fully populated sample scope. -/
theorem c4_extraction_order_amended_witness :
    List.Pairwise (fun a b => catIndex a.tipo ≤ catIndex b.tipo)
      (extrairLinksProvasEGabaritos sampleFullScope "2024").1 ∧
    (∀ r ∈ (extrairLinksProvasEGabaritos sampleFullScope "2024").1,
      catIndex r.tipo < 7) ∧
    ((extrairLinksProvasEGabaritos sampleFullScope "2024").1.filter
        (fun r => r.tipo == "reaplicacao_redacao") =
      match sampleFullScope.anchors.find? temaAnchorPred with
      | some a => [⟨"2024", "reaplicacao_redacao", a.2⟩]
      | none => []) :=
  c4_extraction_order_amended sampleFullScope "2024"

end EnemCrawler
